import Mathlib

/-!
Verification development for the vk-proxy tunnel engine.

The Go sources are shallowly embedded: Go byte slices become `List Nat`
(every element `< 256`), Go strings become lists of Unicode code points
(`List Nat`), machine integers become `Nat` carrying the unsigned bit
pattern of the corresponding Go value (with explicit `% 2^w` where the Go
code can overflow), and fallible functions return `Except`.
-/

deriving instance DecidableEq for Except

namespace VkProxy

/-- All elements of the list are bytes. -/
def Bytes (l : List Nat) : Prop := ∀ b ∈ l, b < 256

/-- Big-endian serialisation of `n` into `w` bytes
(`binary.BigEndian.AppendUintN`). -/
def beBytes (w n : Nat) : List Nat :=
  (List.range w).map (fun i => n / 256 ^ (w - 1 - i) % 256)

/-- Big-endian read of a byte list (`binary.BigEndian.UintN`). -/
def readBE (l : List Nat) : Nat := l.foldl (fun a b => a * 256 + b) 0

/-- Reversed CRC-32/IEEE polynomial. -/
def crc32PolyRev : Nat := 0xEDB88320

/-- One bit step of the reflected CRC-32 algorithm. -/
def crc32Bit (c : Nat) : Nat :=
  if c % 2 = 1 then (c / 2) ^^^ crc32PolyRev else c / 2

/-- Process one byte of input (`hash/crc32`, IEEE polynomial). -/
def crc32Byte (c b : Nat) : Nat :=
  crc32Bit (crc32Bit (crc32Bit (crc32Bit (crc32Bit (crc32Bit (crc32Bit (crc32Bit (c ^^^ b))))))))

/-- `crc32.ChecksumIEEE`. -/
def crc32 (data : List Nat) : Nat :=
  (data.foldl crc32Byte 0xFFFFFFFF) ^^^ 0xFFFFFFFF

/-- The wire datagram (`datagram` struct).  Fields carry the unsigned bit
pattern of the Go values (`uint16`, `uint32`, `int64`, `int32`, `int32`,
`int16`). -/
structure datagram where
  version : Nat
  checksum : Nat
  device : Nat
  session : Nat
  number : Nat
  command : Nat
  payload : List Nat
deriving Repr, DecidableEq

/-- Field ranges enforced by the Go types. -/
def datagram.wf (d : datagram) : Prop :=
  d.version < 2 ^ 16 ∧ d.checksum < 2 ^ 32 ∧ d.device < 2 ^ 64 ∧
  d.session < 2 ^ 32 ∧ d.number < 2 ^ 32 ∧ d.command < 2 ^ 16 ∧ Bytes d.payload

def commandConnect : Nat := 1
def commandForward : Nat := 2
def commandClose : Nat := 3
def commandRetry : Nat := 4

def datagramHeaderLen : Nat := 2 + 4 + 8 + 4 + 4 + 2

/-- `datagram.Len`. -/
def datagram.Len (d : datagram) : Nat := datagramHeaderLen + d.payload.length

/-- `datagram.LenEncoded` = `5 * ceil(Len/4)`. -/
def datagram.LenEncoded (d : datagram) : Nat := 5 * ((d.Len + 3) / 4)

/-- `datagram.isLoopback`; the process-wide `deviceID` global is passed
explicitly. -/
def datagram.isLoopback (d : datagram) (deviceID : Nat) : Bool := d.device == deviceID

/-- `datagram.isZero`. -/
def datagram.isZero (d : datagram) : Bool := d.version == 0

/-- `newDatagram`: version 1, checksum 0, the process device id. -/
def newDatagram (deviceID ses num cmd : Nat) (pld : List Nat) : datagram :=
  ⟨1, 0, deviceID, ses, num, cmd, pld⟩

/-- `datagramHeaderLenEncoded` = `newDatagram(0,0,0,nil).LenEncoded()`. -/
def datagramHeaderLenEncoded : Nat := (newDatagram 0 0 0 0 []).LenEncoded

/-- The header+payload buffer built by `encodeDatagram` before the checksum
is written back. -/
def serializeDatagram (d : datagram) : List Nat :=
  beBytes 2 d.version ++ beBytes 4 d.checksum ++ beBytes 8 d.device ++
  beBytes 4 d.session ++ beBytes 4 d.number ++ beBytes 2 d.command ++ d.payload

/-- Overwrite the 4-byte checksum field at offset 2
(`binary.BigEndian.PutUint32(data[2:6], c)`). -/
def writeChecksum (data : List Nat) (c : Nat) : List Nat :=
  data.take 2 ++ beBytes 4 c ++ data.drop 6

/-- The code points of `base85CharsetRU` (the ASCII charset is the
contiguous run `'!'..'u'`, i.e. `33..117`). -/
def base85CharsetRU : List Nat :=
  [37034, 26012, 32961, 35856, 20889, 26800, 35106, 21368, 34809, 25032,
   27844, 27899, 35874, 23633, 34218, 48, 49, 50, 51, 52, 53, 54, 55, 56,
   57, 33455, 38156, 35081, 35083, 35084, 35085, 35086, 65, 66, 67, 68,
   69, 70, 71, 72, 73, 74, 75, 76, 77, 78, 79, 80, 81, 82, 83, 84, 85, 86,
   87, 88, 89, 90, 35087, 35089, 35092, 35093, 35094, 35095, 97, 98, 99,
   100, 101, 102, 103, 104, 105, 106, 107, 108, 109, 110, 111, 112, 113,
   114, 115, 116, 117]

/-- The substitution applied by `base85Encode` when `enc = RU`: the first
(unique) index of the rune in the ASCII charset selects the RU rune. -/
def asciiToRu (c : Nat) : Nat :=
  if 33 ≤ c ∧ c ≤ 117 then base85CharsetRU.getD (c - 33) c else c

/-- The substitution applied by `base85Decode`: the first index of the rune
in the RU charset selects the ASCII rune. -/
def ruToAscii (r : Nat) : Nat :=
  match base85CharsetRU.indexOf? r with
  | some i => 33 + i
  | none => r

/-- Pack up to four bytes big-endian into a 32-bit group value, zero-padded
low (as `ascii85.Encode` does). -/
def packBE (l : List Nat) : Nat :=
  (l.foldl (fun a b => a * 256 + b) 0) * 256 ^ (4 - l.length)

/-- The five base-85 digit characters of a group value, most significant
first. -/
def digits5 (v : Nat) : List Nat :=
  [33 + v / 85 ^ 4 % 85, 33 + v / 85 ^ 3 % 85, 33 + v / 85 ^ 2 % 85,
   33 + v / 85 % 85, 33 + v % 85]

/-- `encoding/ascii85.Encode`: 4-byte groups become five digits, an all-zero
full group becomes `'z'` (122), a final partial group of `k` bytes becomes
the first `k+1` digits of the zero-padded group. -/
def a85Encode : List Nat → List Nat
  | b0 :: b1 :: b2 :: b3 :: rest =>
    let v := packBE [b0, b1, b2, b3]
    if v = 0 then 122 :: a85Encode rest else digits5 v ++ a85Encode rest
  | [] => []
  | l => (digits5 (packBE l)).take (l.length + 1)

inductive DgErr where
  | malformed
  | corrupt
deriving Repr, DecidableEq

/-- The main loop of `encoding/ascii85.Decode`.  `bud` is `len(dst)`; the
loop stops early (without error and without flushing) as soon as fewer than
4 destination bytes remain.  Result: written bytes, accumulator `v`,
digit count `nb`, early-stop flag. -/
def a85Loop : List Nat → Nat → Nat → Nat → List Nat →
    Except DgErr (List Nat × Nat × Nat × Bool)
  | [], _, v, nb, out => .ok (out, v, nb, false)
  | b :: rest, bud, v, nb, out =>
    if bud - out.length < 4 then .ok (out, v, nb, true)
    else if b ≤ 32 then a85Loop rest bud v nb out
    else if b = 122 ∧ nb = 0 then a85Loop rest bud 0 0 (out ++ [0, 0, 0, 0])
    else if 33 ≤ b ∧ b ≤ 117 then
      let v2 := (v * 85 + (b - 33)) % 2 ^ 32
      if nb + 1 = 5 then a85Loop rest bud 0 0 (out ++ beBytes 4 v2)
      else a85Loop rest bud v2 (nb + 1) out
    else .error .corrupt

/-- Pad the accumulator with `n` copies of digit 84 (`'u'`), as the flush
phase of `ascii85.Decode` does (32-bit arithmetic). -/
def padTimes : Nat → Nat → Nat
  | 0, v => v
  | n + 1, v => padTimes n ((v * 85 + 84) % 2 ^ 32)

/-- `encoding/ascii85.Decode` with `flush = true`, on a destination buffer
of `bud` bytes. -/
def a85Decode (src : List Nat) (bud : Nat) : Except DgErr (List Nat) :=
  match a85Loop src bud 0 0 [] with
  | .error e => .error e
  | .ok (out, v, nb, early) =>
    if early then .ok out
    else if nb = 0 then .ok out
    else if nb = 1 then .error .corrupt
    else .ok (out ++ (beBytes 4 (padTimes (5 - nb) v)).take (nb - 1))

/-- UTF-8 encoding of a code point. -/
def utf8Bytes (r : Nat) : List Nat :=
  if r < 128 then [r]
  else if r < 2048 then [192 + r / 64, 128 + r % 64]
  else if r < 65536 then [224 + r / 4096, 128 + r / 64 % 64, 128 + r % 64]
  else [240 + r / 262144, 128 + r / 4096 % 64, 128 + r / 64 % 64, 128 + r % 64]

def datagramEncodingASCII : Nat := 1
def datagramEncodingRU : Nat := 2

/-- `base85Encode`: ascii85, then the RU character substitution when
requested.  A Go string is modelled as its list of code points. -/
def base85Encode (data : List Nat) (enc : Nat) : List Nat :=
  let dst := a85Encode data
  if enc = datagramEncodingRU then dst.map asciiToRu else dst

/-- `base85Decode`: auto-detect the alphabet by presence of a code point
above 127, undo the substitution, then `ascii85.Decode` over the UTF-8
bytes of the mapped string, with a destination buffer of the same byte
length. -/
def base85Decode (runes : List Nat) : Except DgErr (List Nat) :=
  let enc := if runes.any (fun r => 127 < r) then datagramEncodingRU
             else datagramEncodingASCII
  let mapped := if enc = datagramEncodingRU then runes.map ruToAscii else runes
  let src := (mapped.map utf8Bytes).flatten
  a85Decode src src.length

/-- `encodeDatagram`: serialise big-endian, CRC over the whole buffer,
write the CRC back at offset 2, base85-encode. -/
def encodeDatagram (d : datagram) (enc : Nat) : List Nat :=
  let data := serializeDatagram d
  let frame := writeChecksum data (crc32 data)
  base85Encode frame enc

/-- `decodeDatagram`: base85-decode, check the 24-byte header length,
extract fields, re-zero the checksum field, recompute and compare the
CRC. -/
def decodeDatagram (s : List Nat) : Except DgErr datagram :=
  match base85Decode s with
  | .error e => .error e
  | .ok data =>
    if data.length < datagramHeaderLen then .error .malformed
    else
      let ver := readBE ((data.drop 0).take 2)
      let sum := readBE ((data.drop 2).take 4)
      let dev := readBE ((data.drop 6).take 8)
      let ses := readBE ((data.drop 14).take 4)
      let num := readBE ((data.drop 18).take 4)
      let cmd := readBE ((data.drop 22).take 2)
      let pld := data.drop datagramHeaderLen
      let zeroed := writeChecksum data 0
      if sum ≠ crc32 zeroed then .error .malformed
      else .ok ⟨ver, sum, dev, ses, num, cmd, pld⟩

/-! ### Handler priority queue (handler.go) -/

/-- A datagram emission performed through `q.send` /
`ses.sendDatagram`. -/
inductive Emit where
  | retry (n : Nat)
  | close
deriving Repr, DecidableEq

/-- The mutable state of a `handlerPriorityQueue`, with the Go map
modelled as an association list whose most recent insertion shadows older
entries, plus the `handleClose(q.ses)` effect recorded in `sesClosed`. -/
structure QState where
  temp : List datagram
  data : List (Nat × datagram)
  next : Nat
  pending : Nat
  retries : Nat
  closedQ : Bool
  sesClosed : Bool
deriving Repr, DecidableEq

/-- `openHandlerPriorityQueue`: `next` starts at 1. -/
def openHandlerPriorityQueue : QState :=
  { temp := [], data := [], next := 1, pending := 0, retries := 0,
    closedQ := false, sesClosed := false }

/-- `handlerPriorityQueue.add`; the second component is the
"queue is closed" error. -/
def qAdd (q : QState) (dg : datagram) : QState × Bool :=
  if q.closedQ then (q, true) else ({ q with temp := q.temp ++ [dg] }, false)

/-- The dispatch loop of `handlerPriorityQueue.handle`: while
`data[next]` exists, pass it to `handleCommand` and advance `next`; stop
with `true` when `handleCommand` errors (`ok` is the oracle for
`handleCommand` outcomes).  Returns the trace of dispatched datagrams
tagged with the outcome, the new `next`, and the stop flag. -/
def drain (ok : datagram → Bool) (data : List (Nat × datagram)) (next : Nat) :
    List (datagram × Bool) × Nat × Bool :=
  match h : List.lookup next data with
  | none => ([], next, false)
  | some dg =>
    if ok dg then
      let r := drain ok data (next + 1)
      ((dg, true) :: r.1, r.2.1, r.2.2)
    else ([(dg, false)], next, true)
termination_by (data.map Prod.fst).foldr Nat.max 0 + 1 - next
decreasing_by
  have hmem : ∀ (dl : List (Nat × datagram)), List.lookup next dl = some dg →
      next ∈ dl.map Prod.fst := by
    intro dl
    induction dl with
    | nil => intro hc; simp [List.lookup] at hc
    | cons kv rest ih =>
      intro hc
      obtain ⟨k, v⟩ := kv
      simp only [List.lookup] at hc
      split at hc
      · next heq =>
        simp only [List.map_cons, List.mem_cons]
        exact Or.inl (by simpa using heq)
      · simp only [List.map_cons, List.mem_cons]
        exact Or.inr (ih hc)
  have hle : ∀ (l : List Nat), next ∈ l → next ≤ l.foldr Nat.max 0 := by
    intro l
    induction l with
    | nil => simp
    | cons a t ih =>
      intro hm
      rcases List.mem_cons.mp hm with rfl | hm2
      · simp only [List.foldr_cons]
        exact Nat.le_max_left _ _
      · simp only [List.foldr_cons]
        exact Nat.le_trans (ih hm2) (Nat.le_max_right _ _)
  have := hle _ (hmem data h)
  omega

/-- `handlerPriorityQueue.handle` plus the follow-up in `listen` when it
reports `stop` (send CLOSE, close the session, `q.close()`). -/
def qHandle (ok : datagram → Bool) (q : QState) : QState × List (datagram × Bool) × List Emit :=
  if q.closedQ then (q, [], [])
  else
    let data2 := q.temp.foldl (fun m dg => (dg.number, dg) :: m) q.data
    let r := drain ok data2 q.next
    if r.2.2 then
      ({ q with temp := [], data := [], next := r.2.1, closedQ := true, sesClosed := true },
        r.1, [Emit.close])
    else ({ q with temp := [], data := data2, next := r.2.1 }, r.1, [])

/-- `handlerPriorityQueue.retry`: no probe if `data[next]` exists or a
staged datagram in `temp` is headed for `next`; otherwise count
consecutive probes for the same gap, stopping (CLOSE) once three RETRYs
have been sent. -/
def retryStep (q : QState) : QState × List Emit × Bool :=
  if (List.lookup q.next q.data).isSome then (q, [], false)
  else if q.temp.any (fun dg => dg.number == q.next) then (q, [], false)
  else if q.next = q.pending then
    if q.retries ≥ 3 then (q, [], true)
    else ({ q with retries := q.retries + 1 }, [Emit.retry q.next], false)
  else ({ q with pending := q.next, retries := 1 }, [Emit.retry q.next], false)

/-- The retry-timer arm of `listen`, including the CLOSE follow-up. -/
def qTimer (q : QState) : QState × List Emit :=
  if q.closedQ then (q, [])
  else
    let r := retryStep q
    if r.2.2 then
      ({ r.1 with temp := [], data := [], closedQ := true, sesClosed := true },
        r.2.1 ++ [Emit.close])
    else (r.1, r.2.1)

/-- One interaction with the queue: an `add` from a carrier thread, a
data-signal handled by `listen`, or a retry-timer firing. -/
inductive QEvent where
  | add (dg : datagram)
  | handle
  | timer
deriving Repr, DecidableEq

/-- Run a sequence of events against the queue, collecting the dispatch
trace and the emissions. -/
def runEvents (ok : datagram → Bool) :
    List QEvent → QState → QState × List (datagram × Bool) × List Emit
  | [], q => (q, [], [])
  | e :: es, q =>
    let step : QState × List (datagram × Bool) × List Emit :=
      match e with
      | .add dg => ((qAdd q dg).1, [], [])
      | .handle => qHandle ok q
      | .timer => ((qTimer q).1, [], (qTimer q).2)
    let rest := runEvents ok es step.1
    (rest.1, step.2.1 ++ rest.2.1, step.2.2 ++ rest.2.2)

/-- The bytes `handleForward` writes to the local peer: payloads of the
successfully dispatched FORWARD datagrams, in dispatch order. -/
def peerBytes (tr : List (datagram × Bool)) : List Nat :=
  ((tr.filter (fun p => p.2 && p.1.command == commandForward)).map
    (fun p => p.1.payload)).flatten

/-! ### Session table entry points (handler.go handleDatagram) -/

/-- The session fields relevant to the table-level claims. -/
structure sessionState where
  id : Nat
  number : Nat
  closed : Bool
deriving Repr, DecidableEq

/-- `openSession` (never fails). -/
def openSession (id : Nat) : sessionState := { id := id, number := 0, closed := false }

/-- The global tables guarded by `handleDatagramMu`: the session table and
`handleDatagramQueues`. -/
structure handlerState where
  sessions : List (Nat × sessionState)
  queues : List (Nat × QState)
deriving Repr, DecidableEq

/-- `handleDatagram`: open and register the session if absent (deleting
any stale queue for the id), open the queue if absent, enqueue the
datagram. -/
def handleDatagram (st : handlerState) (dg : datagram) : Except String handlerState :=
  let opened : handlerState × sessionState :=
    match List.lookup dg.session st.sessions with
    | some s => (st, s)
    | none =>
      let s := openSession dg.session
      (⟨(dg.session, s) :: st.sessions,
        st.queues.filter (fun kv => kv.1 ≠ dg.session)⟩, s)
  let queue : QState :=
    match List.lookup opened.2.id opened.1.queues with
    | some q => q
    | none => openHandlerPriorityQueue
  let r := qAdd queue dg
  if r.2 then .error "queue add: queue is closed"
  else .ok ⟨opened.1.sessions, (opened.2.id, r.1) :: opened.1.queues⟩

/-! ### Inbound routing and the storage namespace (handler.go, storage.go) -/

/-- `handleEncoded`: decode, and map loopback frames to the zero
datagram (`datagram{}`). -/
def handleEncoded (deviceID : Nat) (s : List Nat) : Except DgErr datagram :=
  match decodeDatagram s with
  | .error e => .error e
  | .ok dg => if dg.isLoopback deviceID then .ok ⟨0, 0, 0, 0, 0, 0, []⟩ else .ok dg

/-- The text path of `handleUpdate`: the datagrams that get passed on to
`handleDatagram` for a carrier text `s`. -/
def handleUpdateDispatch (deviceID : Nat) (s : List Nat) : List datagram :=
  if s.length = 0 then []
  else
    match handleEncoded deviceID s with
    | .error _ => []
    | .ok dg => if dg.isZero then [] else [dg]

/-- `shouldHandlePhoto` on a photo caption. -/
def shouldHandlePhoto (deviceID : Nat) (caption : List Nat) : Bool :=
  if caption.length = 0 then true
  else
    match handleEncoded deviceID caption with
    | .error _ => true
    | .ok dg => !dg.isZero

/-- The caption test of `shouldHandleDoc`, applied to the `caption=`
query value already extracted from the URL. -/
def shouldHandleDocCaption (deviceID : Nat) (caption : List Nat) : Bool :=
  if caption.length = 0 then true
  else
    match handleEncoded deviceID caption with
    | .error _ => true
    | .ok dg => !dg.isZero

def storageNamespaceUnknown : Nat := 1
def storageNamespaceA : Nat := 2
def storageNamespaceB : Nat := 3

/-- The int64 value behind a 64-bit pattern (Go compares device ids as
signed `int64`). -/
def toInt64 (n : Nat) : Int := if n < 2 ^ 63 then (n : Int) else (n : Int) - 2 ^ 64

/-- `storageNamespace` and `storageNamespaceChangedAt` (time in
seconds). -/
structure storageState where
  ns : Nat
  changedAt : Nat
deriving Repr, DecidableEq

/-- `decideStorageNamespace` at time `now`: debounced for 10 s; ignores
undecodable values and loopback datagrams; otherwise compares device ids
as signed integers. -/
def decideStorageNamespace (deviceID now : Nat) (value : List Nat)
    (st : storageState) : storageState :=
  if now - st.changedAt < 10 then st
  else
    match decodeDatagram value with
    | .error _ => st
    | .ok dg =>
      if dg.isLoopback deviceID then st
      else
        let me := toInt64 deviceID
        let interlocutor := toInt64 dg.device
        let newNamespace :=
          if me < interlocutor then storageNamespaceA
          else if interlocutor < me then storageNamespaceB
          else storageNamespaceUnknown
        { ns := newNamespace, changedAt := now }

/-! ### Padding captions (session.go executeMethodDoc / executeMethodQR) -/

/-- The caption `executeMethodDoc` attaches to an announced document URL:
`encodeDatagram(newDatagram(0, 0, 0, nil), datagramEncodingASCII)`. -/
def docCaption (deviceID : Nat) : List Nat :=
  encodeDatagram (newDatagram deviceID 0 0 0 []) datagramEncodingASCII

/-- The caption `executeMethodQR` attaches to an uploaded QR photo when
no document URL is being announced:
`encodeDatagram(newDatagram(0, 0, 0, nil), datagramEncodingRU)`. -/
def qrCaption (deviceID : Nat) : List Nat :=
  encodeDatagram (newDatagram deviceID 0 0 0 []) datagramEncodingRU

/-! ### SOCKS4/4a CONNECT parsing (socks.go) -/

inductive SocksErr where
  | partialRead
  | unacceptable
  | unsupported
deriving Repr, DecidableEq

/-- The runes of an address; a Go string modelled as code points. -/
structure address where
  host : List Nat
  port : Nat
deriving Repr, DecidableEq

/-- Decimal digits of a number, as runes (`fmt.Sprintf("%v", n)`). -/
def decRunes (n : Nat) : List Nat :=
  if n < 10 then [48 + n] else decRunes (n / 10) ++ [48 + n % 10]
decreasing_by omega

/-- `address.String`: bracketed when the host contains a colon. -/
def addressString (a : address) : List Nat :=
  if 58 ∈ a.host then 91 :: a.host ++ [93, 58] ++ decRunes a.port
  else a.host ++ [58] ++ decRunes a.port

/-- The hostname scan of `handleStageConnectV4`: collect the bytes seen
while exactly one NUL has been passed. -/
def v4aChars : List Nat → Nat → List Nat
  | [], _ => []
  | b :: rest, nulls =>
    if b = 0 then v4aChars rest (nulls + 1)
    else (if nulls = 1 then [b] else []) ++ v4aChars rest nulls

/-- `net.IP.String()` for a 4-byte IP: dotted decimal. -/
def ipString (b : List Nat) : List Nat :=
  match b with
  | [x0, x1, x2, x3] =>
    decRunes x0 ++ [46] ++ decRunes x1 ++ [46] ++ decRunes x2 ++ [46] ++ decRunes x3
  | _ => []

/-- `handleStageConnectV4`. -/
def handleStageConnectV4 (input : List Nat) : Except SocksErr (address × List Nat) :=
  if input.length < 9 then .error .partialRead
  else if input.getD 0 0 ≠ 4 then .error .unacceptable
  else if input.getD 1 0 ≠ 1 then .error .unsupported
  else
    let port := input.getD 2 0 * 256 + input.getD 3 0
    let ip := [input.getD 4 0, input.getD 5 0, input.getD 6 0, input.getD 7 0]
    let chars :=
      if input.getD 4 0 = 0 ∧ input.getD 5 0 = 0 ∧ input.getD 6 0 = 0 ∧ input.getD 7 0 ≠ 0
      then v4aChars (input.drop 8) 0
      else []
    let host := if 0 < chars.length then chars else ipString ip
    let out := 0 :: 90 :: (input.take 8).drop 2
    .ok ({ host := host, port := port }, out)

/-! ### CONNECT payload path (storage.go handleStageConnectSession,
handler.go handleConnect, datagram.go payloadConnect) -/

/-- `payloadConnect.encode`: the UTF-8 bytes of the host followed by the
port as two big-endian bytes. -/
def payloadConnectEncode (host : List Nat) (port : Nat) : List Nat :=
  (host.map utf8Bytes).flatten ++ beBytes 2 port

/-- `payloadConnect.decode`: everything except the last two bytes is the
host (as raw string bytes), the last two bytes are the port. -/
def payloadConnectDecode (data : List Nat) : Except DgErr (List Nat × Nat) :=
  if data.length < 2 then .error .malformed
  else .ok (data.take (data.length - 2), readBE (data.drop (data.length - 2)))

/-- `handleStageConnectSession`: the CONNECT datagram the SOCKS side
sends.  The AES-GCM sealing (`encrypt` with a random nonce) is an
external effect, abstracted as `encryptF`. -/
def handleStageConnectSession (encryptF : List Nat → List Nat) (deviceID : Nat)
    (addr : address) : datagram :=
  newDatagram deviceID 0 0 commandConnect (encryptF (payloadConnectEncode addr.host addr.port))

/-- The payload parsing done by `handleConnect` on a received CONNECT
datagram: `payloadConnect.decode` applied directly to `dg.payload` —
there is no decryption step anywhere on the receive path (`decrypt` in
crypto.go has no callers). -/
def handleConnectParse (pld : List Nat) : Except DgErr (List Nat × Nat) :=
  payloadConnectDecode pld

/-! ### Carrier planner (session.go createPlan, socks.go bytesToChunks) -/

/-- `datagramCalcMaxLen`, the integer value of the float computation
`ceil(4*m/5 - 4)` / `4*m/5`: exact for every argument used (all are far
below 2^51, where float64 is exact). -/
def datagramCalcMaxLen (m : Nat) : Nat :=
  if m % 5 = 0 then 4 * m / 5 else 4 * m / 5 - 3

def methodMessage : Nat := 1
def methodPost : Nat := 2
def methodComment : Nat := 3
def methodDoc : Nat := 4
def methodQR : Nat := 5
def methodStorage : Nat := 6
def methodDescription : Nat := 7
def methodWebsite : Nat := 8
def methodVideoComment : Nat := 9
def methodPhotoComment : Nat := 10

/-- `methodsEnabled` from `initSession` (`unauthorized` =
`cfg.API.Unathorized`). -/
def methodsEnabled (unauthorized : Bool) (m : Nat) : Bool :=
  if m = methodQR ∨ m = methodVideoComment ∨ m = methodPhotoComment then !unauthorized
  else true

/-- `methodsMaxLenEncoded` from `initSession`; `qrMax` is the
config-dependent `qrMaxLen[qrLevel(cfg.QR.ImageLevel)]`.  A missing map
key reads as 0, as in Go. -/
def methodsMaxLenEncoded (qrMax m : Nat) : Nat :=
  if m = methodMessage then 4096
  else if m = methodPost then 16000
  else if m = methodComment then 16000
  else if m = methodDoc then 1048576
  else if m = methodQR then qrMax
  else if m = methodStorage then 4096
  else if m = methodDescription then 2800
  else if m = methodWebsite then 175
  else if m = methodVideoComment then 4096
  else if m = methodPhotoComment then 2048
  else 0

/-- `methodsMaxLenPayload` from `initSession`. -/
def methodsMaxLenPayload (qrMax m : Nat) : Nat :=
  datagramCalcMaxLen (methodsMaxLenEncoded qrMax m - datagramHeaderLenEncoded)

/-- The chunking loop of `bytesToChunks` (`for start := 0; start <
len(b); start += size`); only reached with `size ≠ 0`. -/
def chunksLoop (b : List Nat) (size : Nat) : List (List Nat) :=
  if b = [] then []
  else if size = 0 then []
  else b.take size :: chunksLoop (b.drop size) size
termination_by b.length
decreasing_by
  simp only [List.length_drop]
  rcases b with _ | ⟨x, t⟩
  · simp_all
  · simp only [List.length_cons]
    omega

/-- `bytesToChunks` with the `count` merge step. -/
def bytesToChunks (b : List Nat) (size count : Nat) : List (List Nat) :=
  if size = 0 ∨ count = 1 then [b]
  else
    let chunks := chunksLoop b size
    if 0 < count ∧ count - 1 < chunks.length then
      chunks.take (count - 1) ++ [(chunks.drop (count - 1)).flatten]
    else chunks

/-- The fragmenting loop of `session.createPlan` for an unnumbered big
FORWARD datagram.  The only big method is `methodDoc`
(`bigMethods := []int{methodDoc}`), so `randElem(bigMethods)` is
deterministic.  `num` threads `s.number` through `s.nextNumber()`.
Termination in Go is the code's own guard: the loop errors with
"infinite loop protection" once `len(methods)` would exceed 1000, so it
runs at most 1001 iterations.  The recursion here is paced by an explicit
`fuel` counter chosen large enough that the guard always fires first:
called with `1002 - methods.length ≤ fuel` (as `createPlan` does with
fuel 1002 and empty `methods`), the `fuel = 0` branch is unreachable,
because each iteration grows `methods` by one and the guard errors out
while at least two units of fuel remain. -/
def createPlanLoop (deviceID ses cmd qrMax : Nat) : Nat → List Nat → Nat →
    List Nat → List datagram → Except String (List Nat × List datagram × Nat)
  | _, [], num, methods, frags => .ok (methods, frags, num)
  | 0, _ :: _, _, _, _ => .error "infinite loop protection"
  | fuel + 1, b :: payload, num, methods, frags =>
    let chunks := bytesToChunks (b :: payload) (methodsMaxLenPayload qrMax methodDoc) 2
    if chunks.length = 0 ∨ 2 < chunks.length then .error "unexpected chunks logic"
    else
      let payload2 := if chunks.length = 2 then chunks.getD 1 [] else []
      let num2 := num + 1
      let fg := newDatagram deviceID ses num2 cmd (chunks.getD 0 [])
      if methodsMaxLenEncoded qrMax methodDoc < fg.LenEncoded then
        .error "unexpected payload logic"
      else if 1000 < (methods ++ [methodDoc]).length then .error "infinite loop protection"
      else createPlanLoop deviceID ses cmd qrMax fuel payload2 num2
        (methods ++ [methodDoc]) (frags ++ [fg])

/-- `session.createPlan`.  `pickSmall` stands for `randElem` over the
small-method list; `hasPosts` is `len(s.posts) > 0`. -/
def createPlan (deviceID : Nat) (unauthorized hasPosts : Bool) (qrMax : Nat)
    (pickSmall : List Nat → Nat) (num : Nat) (dg : datagram) :
    Except String (List Nat × List datagram × Nat) :=
  let smallMethods0 := [methodMessage, methodPost]
  let smallMethods1 := if methodsEnabled unauthorized methodQR
    then smallMethods0 ++ [methodQR] else smallMethods0
  let smallMethods2 := if methodsEnabled unauthorized methodVideoComment
    then smallMethods1 ++ [methodVideoComment] else smallMethods1
  let smallMethods3 := if methodsEnabled unauthorized methodPhotoComment
    then smallMethods2 ++ [methodPhotoComment] else smallMethods2
  let smallMethods4 := if hasPosts then smallMethods3 ++ [methodComment, methodComment]
    else smallMethods3
  let smallMethods := if dg.command ≠ commandConnect
    then smallMethods4 ++ [methodStorage, methodStorage] else smallMethods4
  let maxSmallForwardLen := min (methodsMaxLenEncoded qrMax methodQR)
    (methodsMaxLenEncoded qrMax methodPhotoComment)
  if dg.command ≠ commandForward ∨ dg.LenEncoded ≤ maxSmallForwardLen then
    let num2 := if dg.number = 0 then num + 1 else num
    let dg2 := if dg.number = 0 then { dg with number := num + 1 } else dg
    .ok ([pickSmall smallMethods], [dg2], num2)
  else if dg.number ≠ 0 then
    if dg.LenEncoded ≤ methodsMaxLenEncoded qrMax methodDoc then
      .ok ([methodDoc], [dg], num)
    else .error "no methods available"
  else createPlanLoop deviceID dg.session dg.command qrMax 1002 dg.payload num [] []

/-! ### Round-trip lemmas for the ascii85 layer -/

/-- The per-group budget condition under which `ascii85.Decode` never takes
its early exit (`len(dst)-ndst < 4`) on the encoding of `data`, starting
with `o` destination bytes already written. -/
def a85BudgetOk : List Nat → Nat → Nat → Bool
  | _b0 :: _b1 :: _b2 :: _b3 :: rest, bud, o =>
    decide (o + 4 ≤ bud) && a85BudgetOk rest bud (o + 4)
  | [], _, _ => true
  | _, bud, o => decide (o + 4 ≤ bud)

/-- Flush phase of `ascii85.Decode`, split out so that the loop and the
flush can be reasoned about separately. -/
def a85Flush : Except DgErr (List Nat × Nat × Nat × Bool) → Except DgErr (List Nat)
  | .error e => .error e
  | .ok (out, v, nb, early) =>
    if early then .ok out
    else if nb = 0 then .ok out
    else if nb = 1 then .error .corrupt
    else .ok (out ++ (beBytes 4 (padTimes (5 - nb) v)).take (nb - 1))

theorem a85Decode_eq_flush (src : List Nat) (bud : Nat) :
    a85Decode src bud = a85Flush (a85Loop src bud 0 0 []) := by
  unfold a85Decode a85Flush
  rcases h : a85Loop src bud 0 0 [] with e | ⟨out, v, nb, early⟩ <;> simp

theorem a85Loop_digit (x : Nat) (rest : List Nat) (bud v nb : Nat) (out : List Nat)
    (hbud : ¬ (bud - out.length < 4)) (hx : x < 85) (hnb : nb + 1 ≠ 5) :
    a85Loop ((33 + x) :: rest) bud v nb out =
      a85Loop rest bud ((v * 85 + x) % 2 ^ 32) (nb + 1) out := by
  simp only [a85Loop]
  rw [if_neg hbud, if_neg (show ¬ (33 + x ≤ 32) by omega),
    if_neg (show ¬ (33 + x = 122 ∧ nb = 0) by omega),
    if_pos (show 33 ≤ 33 + x ∧ 33 + x ≤ 117 by omega), if_neg hnb]
  have h33 : 33 + x - 33 = x := by omega
  rw [h33]

theorem a85Loop_digit5 (x : Nat) (rest : List Nat) (bud v : Nat) (out : List Nat)
    (hbud : ¬ (bud - out.length < 4)) (hx : x < 85) :
    a85Loop ((33 + x) :: rest) bud v 4 out =
      a85Loop rest bud 0 0 (out ++ beBytes 4 ((v * 85 + x) % 2 ^ 32)) := by
  simp only [a85Loop]
  rw [if_neg hbud, if_neg (show ¬ (33 + x ≤ 32) by omega),
    if_neg (show ¬ (33 + x = 122 ∧ (4 : Nat) = 0) by omega),
    if_pos (show 33 ≤ 33 + x ∧ 33 + x ≤ 117 by omega)]
  simp [show 33 + x - 33 = x by omega]

theorem a85Loop_z (rest : List Nat) (bud : Nat) (out : List Nat)
    (hbud : ¬ (bud - out.length < 4)) :
    a85Loop (122 :: rest) bud 0 0 out = a85Loop rest bud 0 0 (out ++ [0, 0, 0, 0]) := by
  simp only [a85Loop]
  rw [if_neg hbud, if_neg (show ¬ ((122 : Nat) ≤ 32) by omega)]
  simp

set_option maxHeartbeats 1600000 in
theorem a85Loop_group (v : Nat) (rest : List Nat) (bud : Nat) (out : List Nat)
    (hbud : out.length + 4 ≤ bud) (hv : v < 2 ^ 32) :
    a85Loop (digits5 v ++ rest) bud 0 0 out = a85Loop rest bud 0 0 (out ++ beBytes 4 v) := by
  have hb : ¬ (bud - out.length < 4) := by omega
  have m85 : ∀ y : Nat, y % 85 < 85 := fun y => Nat.mod_lt _ (by norm_num)
  have e4 : (85 : Nat) ^ 4 = 52200625 := by norm_num
  have e3 : (85 : Nat) ^ 3 = 614125 := by norm_num
  have e2 : (85 : Nat) ^ 2 = 7225 := by norm_num
  simp only [digits5, List.cons_append, List.nil_append]
  rw [a85Loop_digit _ _ _ _ 0 _ hb (m85 _) (by omega),
    a85Loop_digit _ _ _ _ 1 _ hb (m85 _) (by omega),
    a85Loop_digit _ _ _ _ 2 _ hb (m85 _) (by omega),
    a85Loop_digit _ _ _ _ 3 _ hb (m85 _) (by omega),
    a85Loop_digit5 _ _ _ _ _ hb (m85 _)]
  have s4 : (0 * 85 + v / 85 ^ 4 % 85) % 2 ^ 32 = v / 85 ^ 4 := by rw [e4]; omega
  rw [s4]
  have s3 : (v / 85 ^ 4 * 85 + v / 85 ^ 3 % 85) % 2 ^ 32 = v / 85 ^ 3 := by
    rw [e4, e3]; omega
  rw [s3]
  have s2 : (v / 85 ^ 3 * 85 + v / 85 ^ 2 % 85) % 2 ^ 32 = v / 85 ^ 2 := by
    rw [e3, e2]; omega
  rw [s2]
  have s1 : (v / 85 ^ 2 * 85 + v / 85 % 85) % 2 ^ 32 = v / 85 := by rw [e2]; omega
  rw [s1]
  have s0 : (v / 85 * 85 + v % 85) % 2 ^ 32 = v := by omega
  rw [s0]


theorem packBE_four (b0 b1 b2 b3 : Nat) :
    packBE [b0, b1, b2, b3] = ((b0 * 256 + b1) * 256 + b2) * 256 + b3 := by
  simp [packBE]

theorem packBE_lt (b0 b1 b2 b3 : Nat) (h0 : b0 < 256) (h1 : b1 < 256) (h2 : b2 < 256)
    (h3 : b3 < 256) : packBE [b0, b1, b2, b3] < 2 ^ 32 := by
  rw [packBE_four]; omega

theorem beBytes_two (n : Nat) : beBytes 2 n = [n / 256 % 256, n % 256] := by
  simp [beBytes, List.range_succ]

theorem beBytes_four (n : Nat) :
    beBytes 4 n = [n / 16777216 % 256, n / 65536 % 256, n / 256 % 256, n % 256] := by
  simp [beBytes, List.range_succ]

theorem beBytes_packBE (b0 b1 b2 b3 : Nat) (h0 : b0 < 256) (h1 : b1 < 256) (h2 : b2 < 256)
    (h3 : b3 < 256) : beBytes 4 (packBE [b0, b1, b2, b3]) = [b0, b1, b2, b3] := by
  rw [packBE_four, beBytes_four]
  simp only [List.cons.injEq, and_true]
  omega

theorem packBE_one (b0 : Nat) : packBE [b0] = b0 * 16777216 := by
  simp [packBE]

theorem packBE_two (b0 b1 : Nat) : packBE [b0, b1] = (b0 * 256 + b1) * 65536 := by
  simp [packBE]

theorem packBE_three (b0 b1 b2 : Nat) :
    packBE [b0, b1, b2] = ((b0 * 256 + b1) * 256 + b2) * 256 := by
  simp [packBE]

theorem accD4 (V : Nat) (hV : V < 2 ^ 32) :
    (0 * 85 + V / 85 ^ 4 % 85) % 2 ^ 32 = V / 85 ^ 4 := by
  have e4 : (85 : Nat) ^ 4 = 52200625 := by norm_num
  rw [e4]; omega

theorem accD3 (V : Nat) (hV : V < 2 ^ 32) :
    (V / 85 ^ 4 * 85 + V / 85 ^ 3 % 85) % 2 ^ 32 = V / 85 ^ 3 := by
  have e4 : (85 : Nat) ^ 4 = 52200625 := by norm_num
  have e3 : (85 : Nat) ^ 3 = 614125 := by norm_num
  rw [e4, e3]; omega

theorem accD2 (V : Nat) (hV : V < 2 ^ 32) :
    (V / 85 ^ 3 * 85 + V / 85 ^ 2 % 85) % 2 ^ 32 = V / 85 ^ 2 := by
  have e3 : (85 : Nat) ^ 3 = 614125 := by norm_num
  have e2 : (85 : Nat) ^ 2 = 7225 := by norm_num
  rw [e3, e2]; omega

theorem accD1 (V : Nat) (hV : V < 2 ^ 32) :
    (V / 85 ^ 2 * 85 + V / 85 % 85) % 2 ^ 32 = V / 85 := by
  have e2 : (85 : Nat) ^ 2 = 7225 := by norm_num
  rw [e2]; omega

theorem padTake1 (b0 : Nat) (h0 : b0 < 256) :
    (beBytes 4 (padTimes 3 (b0 * 16777216 / 614125))).take 1 = [b0] := by
  obtain ⟨q, hq⟩ : ∃ q, b0 * 16777216 / 614125 = q := ⟨_, rfl⟩
  have hql : 614125 * q ≤ b0 * 16777216 := by omega
  have hqr : b0 * 16777216 < 614125 * (q + 1) := by omega
  rw [hq]
  simp only [padTimes]
  have hqb : q < 6967 := by omega
  rw [Nat.mod_eq_of_lt (show q * 85 + 84 < 2 ^ 32 by omega)]
  rw [Nat.mod_eq_of_lt (show (q * 85 + 84) * 85 + 84 < 2 ^ 32 by omega)]
  rw [Nat.mod_eq_of_lt (show ((q * 85 + 84) * 85 + 84) * 85 + 84 < 2 ^ 32 by omega)]
  have hP : ((q * 85 + 84) * 85 + 84) * 85 + 84 = 614125 * q + 614124 := by ring
  rw [hP, beBytes_four]
  have hdiv : (614125 * q + 614124) / 16777216 = b0 := by omega
  rw [hdiv]
  simp only [List.take_succ_cons, List.take_zero, List.cons.injEq, and_true]
  omega

theorem padTake2 (b0 b1 : Nat) (h0 : b0 < 256) (h1 : b1 < 256) :
    (beBytes 4 (padTimes 2 ((b0 * 256 + b1) * 65536 / 7225))).take 2 = [b0, b1] := by
  obtain ⟨q, hq⟩ : ∃ q, (b0 * 256 + b1) * 65536 / 7225 = q := ⟨_, rfl⟩
  have hql : 7225 * q ≤ (b0 * 256 + b1) * 65536 := by omega
  have hqr : (b0 * 256 + b1) * 65536 < 7225 * (q + 1) := by omega
  rw [hq]
  simp only [padTimes]
  have hqb : q < 594451 := by omega
  rw [Nat.mod_eq_of_lt (show q * 85 + 84 < 2 ^ 32 by omega)]
  rw [Nat.mod_eq_of_lt (show (q * 85 + 84) * 85 + 84 < 2 ^ 32 by omega)]
  have hP : (q * 85 + 84) * 85 + 84 = 7225 * q + 7224 := by ring
  rw [hP, beBytes_four]
  have hdiv24 : (7225 * q + 7224) / 16777216 = b0 := by omega
  have hdiv16 : (7225 * q + 7224) / 65536 = b0 * 256 + b1 := by omega
  rw [hdiv24, hdiv16]
  simp only [List.take_succ_cons, List.take_zero, List.cons.injEq, and_true]
  omega

theorem padTake3 (b0 b1 b2 : Nat) (h0 : b0 < 256) (h1 : b1 < 256) (h2 : b2 < 256) :
    (beBytes 4 (padTimes 1 (((b0 * 256 + b1) * 256 + b2) * 256 / 85))).take 3 =
      [b0, b1, b2] := by
  obtain ⟨q, hq⟩ : ∃ q, ((b0 * 256 + b1) * 256 + b2) * 256 / 85 = q := ⟨_, rfl⟩
  have hql : 85 * q ≤ ((b0 * 256 + b1) * 256 + b2) * 256 := by omega
  have hqr : ((b0 * 256 + b1) * 256 + b2) * 256 < 85 * (q + 1) := by omega
  rw [hq]
  simp only [padTimes]
  have hqb : q < 50529028 := by omega
  rw [Nat.mod_eq_of_lt (show q * 85 + 84 < 2 ^ 32 by omega)]
  have hP : q * 85 + 84 = 85 * q + 84 := by ring
  rw [hP, beBytes_four]
  have hdiv24 : (85 * q + 84) / 16777216 = b0 := by omega
  have hdiv16 : (85 * q + 84) / 65536 = b0 * 256 + b1 := by omega
  have hdiv8 : (85 * q + 84) / 256 = (b0 * 256 + b1) * 256 + b2 := by omega
  rw [hdiv24, hdiv16, hdiv8]
  simp only [List.take_succ_cons, List.take_zero, List.cons.injEq, and_true]
  omega

set_option maxHeartbeats 800000 in
theorem a85Partial1 (b0 : Nat) (h0 : b0 < 256) (bud : Nat) (out : List Nat)
    (hbud : out.length + 4 ≤ bud) :
    a85Flush (a85Loop (a85Encode [b0]) bud 0 0 out) = .ok (out ++ [b0]) := by
  have hb : ¬ (bud - out.length < 4) := by omega
  have m85 : ∀ y : Nat, y % 85 < 85 := fun y => Nat.mod_lt _ (by norm_num)
  have hV : packBE [b0] < 2 ^ 32 := by rw [packBE_one]; omega
  have henc : a85Encode [b0] =
      [33 + packBE [b0] / 85 ^ 4 % 85, 33 + packBE [b0] / 85 ^ 3 % 85] := by
    simp [a85Encode, digits5]
  rw [henc, a85Loop_digit _ _ _ _ 0 _ hb (m85 _) (by omega),
    a85Loop_digit _ _ _ _ 1 _ hb (m85 _) (by omega)]
  simp only [a85Loop, a85Flush]
  rw [if_neg (by simp), if_neg (by omega), if_neg (by omega)]
  rw [accD4 _ hV, accD3 _ hV]
  norm_num
  rw [packBE_one]
  exact padTake1 b0 h0

set_option maxHeartbeats 800000 in
theorem a85Partial2 (b0 b1 : Nat) (h0 : b0 < 256) (h1 : b1 < 256) (bud : Nat)
    (out : List Nat) (hbud : out.length + 4 ≤ bud) :
    a85Flush (a85Loop (a85Encode [b0, b1]) bud 0 0 out) = .ok (out ++ [b0, b1]) := by
  have hb : ¬ (bud - out.length < 4) := by omega
  have m85 : ∀ y : Nat, y % 85 < 85 := fun y => Nat.mod_lt _ (by norm_num)
  have hV : packBE [b0, b1] < 2 ^ 32 := by rw [packBE_two]; omega
  have henc : a85Encode [b0, b1] =
      [33 + packBE [b0, b1] / 85 ^ 4 % 85, 33 + packBE [b0, b1] / 85 ^ 3 % 85,
       33 + packBE [b0, b1] / 85 ^ 2 % 85] := by
    simp [a85Encode, digits5]
  rw [henc, a85Loop_digit _ _ _ _ 0 _ hb (m85 _) (by omega),
    a85Loop_digit _ _ _ _ 1 _ hb (m85 _) (by omega),
    a85Loop_digit _ _ _ _ 2 _ hb (m85 _) (by omega)]
  simp only [a85Loop, a85Flush]
  rw [if_neg (by simp), if_neg (by omega), if_neg (by omega)]
  rw [accD4 _ hV, accD3 _ hV, accD2 _ hV]
  norm_num
  rw [packBE_two]
  exact padTake2 b0 b1 h0 h1

set_option maxHeartbeats 800000 in
theorem a85Partial3 (b0 b1 b2 : Nat) (h0 : b0 < 256) (h1 : b1 < 256) (h2 : b2 < 256)
    (bud : Nat) (out : List Nat) (hbud : out.length + 4 ≤ bud) :
    a85Flush (a85Loop (a85Encode [b0, b1, b2]) bud 0 0 out) = .ok (out ++ [b0, b1, b2]) := by
  have hb : ¬ (bud - out.length < 4) := by omega
  have m85 : ∀ y : Nat, y % 85 < 85 := fun y => Nat.mod_lt _ (by norm_num)
  have hV : packBE [b0, b1, b2] < 2 ^ 32 := by rw [packBE_three]; omega
  have henc : a85Encode [b0, b1, b2] =
      [33 + packBE [b0, b1, b2] / 85 ^ 4 % 85, 33 + packBE [b0, b1, b2] / 85 ^ 3 % 85,
       33 + packBE [b0, b1, b2] / 85 ^ 2 % 85, 33 + packBE [b0, b1, b2] / 85 % 85] := by
    simp [a85Encode, digits5]
  rw [henc, a85Loop_digit _ _ _ _ 0 _ hb (m85 _) (by omega),
    a85Loop_digit _ _ _ _ 1 _ hb (m85 _) (by omega),
    a85Loop_digit _ _ _ _ 2 _ hb (m85 _) (by omega),
    a85Loop_digit _ _ _ _ 3 _ hb (m85 _) (by omega)]
  simp only [a85Loop, a85Flush]
  rw [if_neg (by simp), if_neg (by omega), if_neg (by omega)]
  rw [accD4 _ hV, accD3 _ hV, accD2 _ hV, accD1 _ hV]
  norm_num
  rw [packBE_three]
  exact padTake3 b0 b1 b2 h0 h1 h2

/-- Decoding the ascii85 encoding of `data` (with `out` bytes already
written and budget `bud`) appends exactly `data`, provided the per-group
budget condition holds. -/
theorem a85Flush_encode : ∀ (data : List Nat) (bud : Nat) (out : List Nat),
    Bytes data → a85BudgetOk data bud out.length = true →
    a85Flush (a85Loop (a85Encode data) bud 0 0 out) = .ok (out ++ data)
  | [], _bud, out, _, _ => by simp [a85Encode, a85Loop, a85Flush]
  | [b0], bud, out, hB, hbud => by
    simp only [a85BudgetOk, decide_eq_true_eq] at hbud
    exact a85Partial1 b0 (hB b0 (by simp)) bud out hbud
  | [b0, b1], bud, out, hB, hbud => by
    simp only [a85BudgetOk, decide_eq_true_eq] at hbud
    exact a85Partial2 b0 b1 (hB b0 (by simp)) (hB b1 (by simp)) bud out hbud
  | [b0, b1, b2], bud, out, hB, hbud => by
    simp only [a85BudgetOk, decide_eq_true_eq] at hbud
    exact a85Partial3 b0 b1 b2 (hB b0 (by simp)) (hB b1 (by simp)) (hB b2 (by simp))
      bud out hbud
  | b0 :: b1 :: b2 :: b3 :: rest, bud, out, hB, hbud => by
    have hB4 : b0 < 256 ∧ b1 < 256 ∧ b2 < 256 ∧ b3 < 256 := by
      refine ⟨hB b0 ?_, hB b1 ?_, hB b2 ?_, hB b3 ?_⟩ <;> simp
    have hBrest : Bytes rest := fun b hb => hB b (by simp [hb])
    simp only [a85BudgetOk, Bool.and_eq_true, decide_eq_true_eq] at hbud
    obtain ⟨hbud1, hbud2⟩ := hbud
    simp only [a85Encode]
    by_cases hv : packBE [b0, b1, b2, b3] = 0
    · rw [if_pos hv, a85Loop_z _ _ _ (by omega)]
      have hzero : b0 = 0 ∧ b1 = 0 ∧ b2 = 0 ∧ b3 = 0 := by
        rw [packBE_four] at hv
        omega
      have hrec := a85Flush_encode rest bud (out ++ [0, 0, 0, 0]) hBrest
        (by simpa using hbud2)
      rw [hrec]
      obtain ⟨z0, z1, z2, z3⟩ := hzero
      subst z0 z1 z2 z3
      simp
    · rw [if_neg hv,
        a85Loop_group _ _ _ _ (by omega)
          (packBE_lt _ _ _ _ hB4.1 hB4.2.1 hB4.2.2.1 hB4.2.2.2),
        beBytes_packBE _ _ _ _ hB4.1 hB4.2.1 hB4.2.2.1 hB4.2.2.2]
      have hrec := a85Flush_encode rest bud (out ++ [b0, b1, b2, b3]) hBrest
        (by simpa using hbud2)
      rw [hrec]
      simp

theorem digits5_mem (v c : Nat) (hc : c ∈ digits5 v) : 33 ≤ c ∧ c ≤ 117 := by
  simp [digits5] at hc
  rcases hc with rfl | rfl | rfl | rfl | rfl <;> omega

/-- Every character that `ascii85.Encode` emits is a digit `'!'..'u'` or
`'z'`. -/
theorem a85Encode_mem : ∀ (data : List Nat), ∀ c ∈ a85Encode data,
    (33 ≤ c ∧ c ≤ 117) ∨ c = 122
  | b0 :: b1 :: b2 :: b3 :: rest, c => by
    intro hc
    simp only [a85Encode] at hc
    by_cases hv : packBE [b0, b1, b2, b3] = 0
    · rw [if_pos hv] at hc
      rcases List.mem_cons.mp hc with h | h
      · exact Or.inr h
      · exact a85Encode_mem rest c h
    · rw [if_neg hv] at hc
      rcases List.mem_append.mp hc with h | h
      · exact Or.inl (digits5_mem _ _ h)
      · exact a85Encode_mem rest c h
  | [], c => by simp [a85Encode]
  | [b0], c => by
    intro hc
    simp only [a85Encode] at hc
    exact Or.inl (digits5_mem _ _ (List.mem_of_mem_take hc))
  | [b0, b1], c => by
    intro hc
    simp only [a85Encode] at hc
    exact Or.inl (digits5_mem _ _ (List.mem_of_mem_take hc))
  | [b0, b1, b2], c => by
    intro hc
    simp only [a85Encode] at hc
    exact Or.inl (digits5_mem _ _ (List.mem_of_mem_take hc))

/-- The RU charset has no duplicates, so the decode-side substitution is a
left inverse of the encode-side substitution on every character the encoder
can emit. -/
theorem ruToAscii_asciiToRu : ∀ c : Nat, c < 123 → 33 ≤ c ∨ c = 122 →
    ruToAscii (asciiToRu c) = c := by decide

/-- Every character of the RU charset that is ASCII is a fixed point of the
substitution. -/
theorem asciiToRu_small : ∀ c : Nat, c < 123 → asciiToRu c ≤ 127 → asciiToRu c = c := by
  decide

theorem map_id_on (f : Nat → Nat) : ∀ (l : List Nat), (∀ a ∈ l, f a = a) → l.map f = l
  | [], _ => rfl
  | a :: t, h => by
    have ht := map_id_on f t (fun b hb => h b (by simp [hb]))
    simp [h a (by simp), ht]

theorem utf8_flatten : ∀ (l : List Nat), (∀ r ∈ l, r < 128) →
    (l.map utf8Bytes).flatten = l
  | [], _ => rfl
  | a :: t, h => by
    have ht := utf8_flatten t (fun b hb => h b (by simp [hb]))
    simp [utf8Bytes, h a (by simp), ht]

/-- `base85Decode` inverts `base85Encode` for any alphabet selector,
under the decoder-budget condition. -/
theorem base85_roundtrip (data : List Nat) (enc : Nat) (hB : Bytes data)
    (hbud : a85BudgetOk data (a85Encode data).length 0 = true) :
    base85Decode (base85Encode data enc) = .ok data := by
  have hmem := a85Encode_mem data
  have hback : ∀ c ∈ a85Encode data, ruToAscii (asciiToRu c) = c := by
    intro c hc
    rcases hmem c hc with ⟨h1, h2⟩ | h
    · exact ruToAscii_asciiToRu c (by omega) (Or.inl h1)
    · exact ruToAscii_asciiToRu c (by omega) (Or.inr h)
  have hsmall : ∀ c ∈ a85Encode data, c < 128 := by
    intro c hc
    rcases hmem c hc with ⟨_, h2⟩ | h <;> omega
  have hrun : a85Decode (a85Encode data) (a85Encode data).length = .ok data := by
    rw [a85Decode_eq_flush]
    simpa using a85Flush_encode data (a85Encode data).length [] hB hbud
  simp only [base85Encode, base85Decode]
  by_cases he : enc = datagramEncodingRU
  · simp only [if_pos he]
    by_cases hdet : ((a85Encode data).map asciiToRu).any (fun r => 127 < r) = true
    · simp only [if_pos hdet, if_true]
      have hmapped : ((a85Encode data).map asciiToRu).map ruToAscii = a85Encode data := by
        rw [List.map_map]
        exact map_id_on _ _ (fun c hc => by simpa [Function.comp] using hback c hc)
      rw [hmapped, utf8_flatten _ hsmall]
      exact hrun
    · simp only [if_neg hdet,
        if_neg (show datagramEncodingASCII ≠ datagramEncodingRU from by decide)]
      have hdet2 : ∀ a ∈ a85Encode data, asciiToRu a ≤ 127 := by simpa using hdet
      have hfix : (a85Encode data).map asciiToRu = a85Encode data := by
        apply map_id_on
        intro c hc
        rcases hmem c hc with ⟨h1, h2⟩ | h
        · exact asciiToRu_small c (by omega) (hdet2 c hc)
        · exact asciiToRu_small c (by omega) (hdet2 c hc)
      rw [hfix, utf8_flatten _ hsmall]
      exact hrun
  · simp only [if_neg he]
    have hdet : ¬ ((a85Encode data).any (fun r => 127 < r) = true) := by
      intro hcontra
      rw [List.any_eq_true] at hcontra
      obtain ⟨c, hc, hgt⟩ := hcontra
      have := hsmall c hc
      simp only [decide_eq_true_eq] at hgt
      omega
    simp only [if_neg hdet,
      if_neg (show datagramEncodingASCII ≠ datagramEncodingRU from by decide)]
    rw [utf8_flatten _ hsmall]
    exact hrun

/-! ### Datagram-layer round trip -/

theorem beBytes_eight (n : Nat) :
    beBytes 8 n = [n / 72057594037927936 % 256, n / 281474976710656 % 256,
      n / 1099511627776 % 256, n / 4294967296 % 256, n / 16777216 % 256,
      n / 65536 % 256, n / 256 % 256, n % 256] := by
  simp [beBytes, List.range_succ]

theorem readBE_two (x : Nat) (hx : x < 65536) : readBE [x / 256 % 256, x % 256] = x := by
  simp [readBE]
  omega

theorem readBE_four (x : Nat) (hx : x < 4294967296) :
    readBE [x / 16777216 % 256, x / 65536 % 256, x / 256 % 256, x % 256] = x := by
  simp [readBE]
  omega

theorem readBE_eight (x : Nat) (hx : x < 18446744073709551616) :
    readBE [x / 72057594037927936 % 256, x / 281474976710656 % 256,
      x / 1099511627776 % 256, x / 4294967296 % 256, x / 16777216 % 256,
      x / 65536 % 256, x / 256 % 256, x % 256] = x := by
  simp [readBE]
  omega

theorem crc32Bit_lt (c : Nat) (h : c < 2 ^ 32) : crc32Bit c < 2 ^ 32 := by
  unfold crc32Bit crc32PolyRev
  split
  · exact Nat.xor_lt_two_pow (by omega) (by norm_num)
  · omega

theorem crc32Byte_lt (c b : Nat) (hc : c < 2 ^ 32) (hb : b < 256) :
    crc32Byte c b < 2 ^ 32 := by
  unfold crc32Byte
  have h0 : c ^^^ b < 2 ^ 32 := Nat.xor_lt_two_pow hc (by omega)
  exact crc32Bit_lt _ (crc32Bit_lt _ (crc32Bit_lt _ (crc32Bit_lt _ (crc32Bit_lt _
    (crc32Bit_lt _ (crc32Bit_lt _ (crc32Bit_lt _ h0)))))))

theorem crc32_foldl_lt : ∀ (l : List Nat) (c : Nat), Bytes l → c < 2 ^ 32 →
    l.foldl crc32Byte c < 2 ^ 32
  | [], c, _, hc => hc
  | b :: t, c, hB, hc => by
    have hb : b < 256 := hB b (by simp)
    have ht : Bytes t := fun x hx => hB x (by simp [hx])
    simpa using crc32_foldl_lt t (crc32Byte c b) ht (crc32Byte_lt c b hc hb)

theorem crc32_lt (data : List Nat) (hB : Bytes data) : crc32 data < 2 ^ 32 := by
  unfold crc32
  exact Nat.xor_lt_two_pow (crc32_foldl_lt data _ hB (by norm_num)) (by norm_num)

/-- The serialised frame, element by element. -/
theorem serialize_explicit (d : datagram) :
    serializeDatagram d =
      d.version / 256 % 256 :: d.version % 256 ::
      d.checksum / 16777216 % 256 :: d.checksum / 65536 % 256 ::
      d.checksum / 256 % 256 :: d.checksum % 256 ::
      d.device / 72057594037927936 % 256 :: d.device / 281474976710656 % 256 ::
      d.device / 1099511627776 % 256 :: d.device / 4294967296 % 256 ::
      d.device / 16777216 % 256 :: d.device / 65536 % 256 ::
      d.device / 256 % 256 :: d.device % 256 ::
      d.session / 16777216 % 256 :: d.session / 65536 % 256 ::
      d.session / 256 % 256 :: d.session % 256 ::
      d.number / 16777216 % 256 :: d.number / 65536 % 256 ::
      d.number / 256 % 256 :: d.number % 256 ::
      d.command / 256 % 256 :: d.command % 256 :: d.payload := by
  simp [serializeDatagram, beBytes_two, beBytes_four, beBytes_eight]

/-- The frame after the checksum has been written back at offset 2. -/
theorem frame_explicit (d : datagram) (c : Nat) :
    writeChecksum (serializeDatagram d) c =
      d.version / 256 % 256 :: d.version % 256 ::
      c / 16777216 % 256 :: c / 65536 % 256 :: c / 256 % 256 :: c % 256 ::
      d.device / 72057594037927936 % 256 :: d.device / 281474976710656 % 256 ::
      d.device / 1099511627776 % 256 :: d.device / 4294967296 % 256 ::
      d.device / 16777216 % 256 :: d.device / 65536 % 256 ::
      d.device / 256 % 256 :: d.device % 256 ::
      d.session / 16777216 % 256 :: d.session / 65536 % 256 ::
      d.session / 256 % 256 :: d.session % 256 ::
      d.number / 16777216 % 256 :: d.number / 65536 % 256 ::
      d.number / 256 % 256 :: d.number % 256 ::
      d.command / 256 % 256 :: d.command % 256 :: d.payload := by
  rw [writeChecksum, serialize_explicit, beBytes_four]
  simp

theorem serialize_bytes (d : datagram) (hp : Bytes d.payload) :
    Bytes (serializeDatagram d) := by
  rw [serialize_explicit]
  intro b hb
  simp only [List.mem_cons] at hb
  rcases hb with rfl | rfl | rfl | rfl | rfl | rfl | rfl | rfl | rfl | rfl | rfl | rfl |
    rfl | rfl | rfl | rfl | rfl | rfl | rfl | rfl | rfl | rfl | rfl | rfl | h
  all_goals first
    | exact Nat.mod_lt _ (by norm_num)
    | exact hp b h

theorem frame_bytes (d : datagram) (c : Nat) (hp : Bytes d.payload) :
    Bytes (writeChecksum (serializeDatagram d) c) := by
  rw [frame_explicit]
  intro b hb
  simp only [List.mem_cons] at hb
  rcases hb with rfl | rfl | rfl | rfl | rfl | rfl | rfl | rfl | rfl | rfl | rfl | rfl |
    rfl | rfl | rfl | rfl | rfl | rfl | rfl | rfl | rfl | rfl | rfl | rfl | h
  all_goals first
    | exact Nat.mod_lt _ (by norm_num)
    | exact hp b h

theorem writeChecksum_reset (d : datagram) (c : Nat) (h0 : d.checksum = 0) :
    writeChecksum (writeChecksum (serializeDatagram d) c) 0 = serializeDatagram d := by
  rw [frame_explicit]
  rw [serialize_explicit]
  simp [writeChecksum, beBytes_four, h0]

/-- Decoding an encoded datagram succeeds and recovers every field except
the checksum field, which comes back as the CRC the encoder wrote into the
frame.  Holds for both alphabets (`enc` arbitrary), for well-typed
datagrams with a zero checksum field (as `newDatagram` produces), whenever
the ascii85 budget condition holds for the frame. -/
theorem decodeDatagram_encodeDatagram (d : datagram) (enc : Nat) (hwf : d.wf)
    (h0 : d.checksum = 0)
    (hbud : a85BudgetOk (writeChecksum (serializeDatagram d) (crc32 (serializeDatagram d)))
      (a85Encode (writeChecksum (serializeDatagram d)
        (crc32 (serializeDatagram d)))).length 0 = true) :
    decodeDatagram (encodeDatagram d enc) =
      .ok { d with checksum := crc32 (serializeDatagram d) } := by
  obtain ⟨hv, hc, hdev, hs, hn, hcmd, hp⟩ := hwf
  have hBdata : Bytes (serializeDatagram d) := serialize_bytes d hp
  have hBframe : Bytes (writeChecksum (serializeDatagram d) (crc32 (serializeDatagram d))) :=
    frame_bytes d _ hp
  have hRT := base85_roundtrip _ enc hBframe hbud
  have hcrc : crc32 (serializeDatagram d) < 2 ^ 32 := crc32_lt _ hBdata
  simp only [encodeDatagram, decodeDatagram, hRT]
  rw [writeChecksum_reset d _ h0]
  rw [frame_explicit]
  simp only [List.length_cons, List.take_succ_cons, List.drop_succ_cons, List.take_zero,
    List.drop_zero]
  rw [readBE_two d.version (by omega), readBE_four (crc32 (serializeDatagram d)) (by omega),
    readBE_eight d.device (by omega), readBE_four d.session (by omega),
    readBE_four d.number (by omega), readBE_two d.command (by omega)]
  split
  · next hcontra =>
    exfalso
    simp only [datagramHeaderLen] at hcontra
    omega
  · split
    · next hcontra => exact absurd rfl hcontra
    · simp only [datagramHeaderLen]
      simp [List.drop_succ_cons]

/-! ### Classification of decode errors -/

theorem a85Loop_error : ∀ (src : List Nat) (bud v nb : Nat) (out : List Nat) (e : DgErr),
    a85Loop src bud v nb out = .error e → e = .corrupt
  | [], bud, v, nb, out, e => by simp [a85Loop]
  | b :: rest, bud, v, nb, out, e => by
    simp only [a85Loop]
    intro h
    split_ifs at h
    all_goals
      first
        | exact Except.noConfusion h
        | exact a85Loop_error rest bud _ _ _ e h
        | (injection h with he; exact he.symm)

theorem a85Decode_error (src : List Nat) (bud : Nat) (e : DgErr)
    (h : a85Decode src bud = .error e) : e = .corrupt := by
  rcases hl : a85Loop src bud 0 0 [] with e' | ⟨out, v, nb, early⟩
  · simp only [a85Decode, hl] at h
    injection h with he
    exact he ▸ a85Loop_error src bud 0 0 [] e' hl
  · simp only [a85Decode, hl] at h
    split_ifs at h
    all_goals
      first
        | exact Except.noConfusion h
        | (injection h with he; exact he.symm)

theorem base85Decode_error (runes : List Nat) (e : DgErr)
    (h : base85Decode runes = .error e) : e = .corrupt := by
  unfold base85Decode at h
  exact a85Decode_error _ _ e h

/-- `decodeDatagram` produces the malformed error exactly when the base85
layer succeeded but the frame is shorter than the header or the stored
checksum disagrees with the CRC over the re-zeroed frame. -/
theorem decodeDatagram_malformed_iff (s : List Nat) :
    decodeDatagram s = .error .malformed ↔
      ∃ data, base85Decode s = .ok data ∧
        (data.length < datagramHeaderLen ∨
          readBE ((data.drop 2).take 4) ≠ crc32 (writeChecksum data 0)) := by
  rcases hb : base85Decode s with e | data
  · simp only [decodeDatagram, hb]
    constructor
    · intro h
      injection h with he
      have := base85Decode_error s e hb
      subst this
      exact absurd he (by simp)
    · rintro ⟨data, hcontra, -⟩
      exact absurd hcontra (by simp)
  · simp only [decodeDatagram, hb]
    constructor
    · intro h
      refine ⟨data, rfl, ?_⟩
      split_ifs at h with h1 h2
      · exact Or.inl h1
      · exact Or.inr h2
    · rintro ⟨data', hdata', hcond⟩
      injection hdata' with hd
      subst hd
      rcases hcond with hlen | hsum
      · rw [if_pos hlen]
      · by_cases hlen : data.length < datagramHeaderLen
        · rw [if_pos hlen]
        · rw [if_neg hlen, if_pos hsum]

/-! ### Supporting lemmas for the table-level claims -/

theorem lookup_filter_ne {α : Type} (k : Nat) : ∀ (l : List (Nat × α)),
    List.lookup k (l.filter (fun kv => kv.1 ≠ k)) = none
  | [] => rfl
  | (k2, v) :: t => by
    have ht := lookup_filter_ne k t
    by_cases h : k2 = k
    · simpa [List.filter_cons, h] using ht
    · have hbeq : (k == k2) = false := by
        simp only [beq_eq_false_iff_ne, ne_eq]
        exact fun hh => h hh.symm
      simp [List.filter_cons, h, List.lookup, hbeq, ht]
      exact fun a b _ ha hk => ha hk.symm

/-! ### Claim C2: the codec round trip -/

set_option maxRecDepth 100000 in
/-- Claim C2, counterexample to the literal statement: the round trip does
not return the datagram unchanged.  Encoding writes the CRC of the frame into
the checksum field, and decoding reports that stored CRC, so even a
well-formed datagram with a zero checksum field comes back with a different
`checksum`. -/
theorem C2_roundtrip_counterexample :
    decodeDatagram (encodeDatagram ⟨1, 0, 42, 7, 1, 2, [222, 173, 190, 239]⟩
        datagramEncodingASCII) ≠
      Except.ok ⟨1, 0, 42, 7, 1, 2, [222, 173, 190, 239]⟩ := by decide

/-- Claim C2, amended: for both alphabet selectors, decoding an encoded
datagram succeeds and recovers the version, device, session, number, command
and payload exactly; the checksum field alone comes back changed, holding the
CRC32 the encoder wrote into the frame.  The datagram must be well-typed with
a zero checksum field (as `newDatagram` always produces), and the frame must
satisfy the ascii85 budget condition (no early exit of `ascii85.Decode`
caused by zero-group compression). -/
theorem C2_roundtrip_amended (d : datagram) (enc : Nat) (hwf : d.wf)
    (h0 : d.checksum = 0)
    (hbud : a85BudgetOk (writeChecksum (serializeDatagram d) (crc32 (serializeDatagram d)))
      (a85Encode (writeChecksum (serializeDatagram d) (crc32 (serializeDatagram d)))).length 0
      = true) :
    decodeDatagram (encodeDatagram d enc) =
      Except.ok { d with checksum := crc32 (serializeDatagram d) } :=
  decodeDatagram_encodeDatagram d enc hwf h0 hbud

set_option maxRecDepth 100000 in
/-- Claim C2 witness: the amended round trip at a concrete datagram over the
substituted (RU) alphabet. -/
theorem C2_roundtrip_witness :
    decodeDatagram (encodeDatagram ⟨1, 0, 42, 7, 1, 2, [222, 173, 190, 239]⟩
        datagramEncodingRU) =
      Except.ok { (⟨1, 0, 42, 7, 1, 2, [222, 173, 190, 239]⟩ : datagram) with
        checksum := crc32 (serializeDatagram ⟨1, 0, 42, 7, 1, 2, [222, 173, 190, 239]⟩) } :=
  C2_roundtrip_amended ⟨1, 0, 42, 7, 1, 2, [222, 173, 190, 239]⟩ datagramEncodingRU
    (by unfold datagram.wf Bytes; decide) rfl (by decide)

/-! ### Claim C4: the malformed-frame classification -/

/-- Claim C4: `decodeDatagram` reports the malformed error exactly when the
base85 layer succeeded but the frame is shorter than the 24-byte header or
its stored checksum (offset 2) differs from the CRC32/IEEE recomputed over
the frame with the checksum field zeroed; and `encodeDatagram` computes the
CRC over the serialised header-plus-payload buffer (whose checksum field is
zero) and writes it back at offset 2, so re-zeroing the field recovers the
buffer the CRC was computed over. -/
theorem C4_checksum_malformed :
    (∀ s : List Nat, decodeDatagram s = Except.error DgErr.malformed ↔
      ∃ data, base85Decode s = Except.ok data ∧
        (data.length < datagramHeaderLen ∨
          readBE ((data.drop 2).take 4) ≠ crc32 (writeChecksum data 0))) ∧
    (∀ (d : datagram) (enc : Nat), d.checksum = 0 →
      encodeDatagram d enc =
        base85Encode (writeChecksum (serializeDatagram d) (crc32 (serializeDatagram d))) enc ∧
      writeChecksum (writeChecksum (serializeDatagram d) (crc32 (serializeDatagram d))) 0 =
        serializeDatagram d) :=
  ⟨decodeDatagram_malformed_iff,
   fun d _enc h0 => ⟨rfl, writeChecksum_reset d (crc32 (serializeDatagram d)) h0⟩⟩

/-! ### Claim C7: loopback datagrams are inert -/

/-- Claim C7: a received carrier string that decodes to a datagram whose
device id equals the local device id is never acted upon: `handleEncoded`
maps it to the zero datagram, the update path dispatches nothing from it,
the photo/doc caption tests report it as padding, and the storage-namespace
decision leaves the stored state unchanged. -/
theorem C7_loopback_inert (deviceID : Nat) (s : List Nat) (dg : datagram)
    (hdec : decodeDatagram s = Except.ok dg) (hloop : dg.isLoopback deviceID = true) :
    handleEncoded deviceID s = Except.ok ⟨0, 0, 0, 0, 0, 0, []⟩ ∧
    (⟨0, 0, 0, 0, 0, 0, []⟩ : datagram).isZero = true ∧
    handleUpdateDispatch deviceID s = [] ∧
    shouldHandlePhoto deviceID s = false ∧
    shouldHandleDocCaption deviceID s = false ∧
    (∀ now st, decideStorageNamespace deviceID now s st = st) := by
  have hne : s ≠ [] := by
    intro h
    subst h
    rw [show decodeDatagram [] = Except.error DgErr.malformed from by decide] at hdec
    exact Except.noConfusion hdec
  have hlen : ¬ s.length = 0 := fun h => hne (List.eq_nil_of_length_eq_zero h)
  have henc : handleEncoded deviceID s = Except.ok ⟨0, 0, 0, 0, 0, 0, []⟩ := by
    simp [handleEncoded, hdec, hloop]
  refine ⟨henc, rfl, ?_, ?_, ?_, ?_⟩
  · simp [handleUpdateDispatch, hlen, henc, datagram.isZero]
  · simp [shouldHandlePhoto, hlen, henc, datagram.isZero]
  · simp [shouldHandleDocCaption, hlen, henc, datagram.isZero]
  · intro now st
    by_cases hdb : now - st.changedAt < 10
    · simp [decideStorageNamespace, hdb]
    · simp [decideStorageNamespace, hdb, hdec, hloop]

set_option maxRecDepth 100000 in
/-- Claim C7 witness: the loopback guarantees at a concrete encoded
datagram carrying device id 42, received by device 42. -/
theorem C7_loopback_inert_witness :
    handleEncoded 42 (encodeDatagram ⟨1, 0, 42, 7, 1, 2, [1, 2, 3]⟩ datagramEncodingASCII) =
      Except.ok ⟨0, 0, 0, 0, 0, 0, []⟩ ∧
    (⟨0, 0, 0, 0, 0, 0, []⟩ : datagram).isZero = true ∧
    handleUpdateDispatch 42
      (encodeDatagram ⟨1, 0, 42, 7, 1, 2, [1, 2, 3]⟩ datagramEncodingASCII) = [] ∧
    shouldHandlePhoto 42
      (encodeDatagram ⟨1, 0, 42, 7, 1, 2, [1, 2, 3]⟩ datagramEncodingASCII) = false ∧
    shouldHandleDocCaption 42
      (encodeDatagram ⟨1, 0, 42, 7, 1, 2, [1, 2, 3]⟩ datagramEncodingASCII) = false ∧
    (∀ now st, decideStorageNamespace 42 now
      (encodeDatagram ⟨1, 0, 42, 7, 1, 2, [1, 2, 3]⟩ datagramEncodingASCII) st = st) :=
  C7_loopback_inert 42 (encodeDatagram ⟨1, 0, 42, 7, 1, 2, [1, 2, 3]⟩ datagramEncodingASCII)
    { (⟨1, 0, 42, 7, 1, 2, [1, 2, 3]⟩ : datagram) with
      checksum := crc32 (serializeDatagram ⟨1, 0, 42, 7, 1, 2, [1, 2, 3]⟩) }
    (by decide) (by decide)

/-! ### Claim C10: handleDatagram allocates session state -/

/-- Claim C10: a received datagram whose session id is absent from the
session table — whatever its command — makes `handleDatagram` register a
newly opened session under that id, drop any stale queue recorded for the
id, and enqueue the datagram into a freshly opened handler queue (whose
expected number starts at 1). -/
theorem C10_session_allocation (st : handlerState) (dg : datagram)
    (habs : List.lookup dg.session st.sessions = none) :
    handleDatagram st dg = Except.ok
      ⟨(dg.session, openSession dg.session) :: st.sessions,
       (dg.session, { openHandlerPriorityQueue with temp := [dg] }) ::
         st.queues.filter (fun kv => kv.1 ≠ dg.session)⟩ ∧
    openHandlerPriorityQueue.next = 1 ∧
    List.lookup dg.session ((dg.session, openSession dg.session) :: st.sessions) =
      some (openSession dg.session) := by
  refine ⟨?_, rfl, by simp [List.lookup]⟩
  simp only [handleDatagram, habs, openSession]
  rw [lookup_filter_ne]
  simp [qAdd, openHandlerPriorityQueue]

/-- Claim C10 witness: a FORWARD datagram for unknown session 7 replaces the
stale (closed) queue for id 7 with a fresh one holding the datagram. -/
theorem C10_session_allocation_witness :
    handleDatagram ⟨[], [(7, { openHandlerPriorityQueue with closedQ := true })]⟩
        ⟨1, 0, 99, 7, 1, 2, [65]⟩ = Except.ok
      ⟨[(7, openSession 7)],
       (7, { openHandlerPriorityQueue with temp := [⟨1, 0, 99, 7, 1, 2, [65]⟩] }) ::
         [(7, { openHandlerPriorityQueue with closedQ := true })].filter
           (fun kv => kv.1 ≠ 7)⟩ ∧
    openHandlerPriorityQueue.next = 1 ∧
    List.lookup 7 [(7, openSession 7)] = some (openSession 7) :=
  C10_session_allocation ⟨[], [(7, { openHandlerPriorityQueue with closedQ := true })]⟩
    ⟨1, 0, 99, 7, 1, 2, [65]⟩ rfl

theorem drain_none (ok : datagram → Bool) (data : List (Nat × datagram)) (next : Nat)
    (h : List.lookup next data = none) : drain ok data next = ([], next, false) := by
  rw [drain.eq_def]
  split
  · rfl
  · next dg heq => rw [h] at heq; exact Option.noConfusion heq

theorem drain_some_ok (ok : datagram → Bool) (data : List (Nat × datagram)) (next : Nat)
    (dg : datagram) (h : List.lookup next data = some dg) (hok : ok dg = true) :
    drain ok data next = ((dg, true) :: (drain ok data (next + 1)).1,
      (drain ok data (next + 1)).2.1, (drain ok data (next + 1)).2.2) := by
  rw [drain.eq_def]
  split
  · next heq => rw [h] at heq; exact Option.noConfusion heq
  · next dg2 heq =>
    rw [h] at heq
    injection heq with he
    subst he
    rw [if_pos hok]

theorem drain_some_stop (ok : datagram → Bool) (data : List (Nat × datagram)) (next : Nat)
    (dg : datagram) (h : List.lookup next data = some dg) (hok : ok dg = false) :
    drain ok data next = ([(dg, false)], next, true) := by
  rw [drain.eq_def]
  split
  · next heq => rw [h] at heq; exact Option.noConfusion heq
  · next dg2 heq =>
    rw [h] at heq
    injection heq with he
    subst he
    rw [if_neg (by simp [hok])]

/-! ### Claim C3: the retry probe and loss declaration -/

/-- Claim C3, counterexample to the literal statement: receive 1, then 3,
no 2.  After the RETRY(2) probe at the first timer firing and two more
10-second intervals (three probes in all) the session is still open: the
third probe emits a third RETRY(2) rather than CLOSE. -/
theorem C3_retry_close_counterexample :
    (runEvents (fun _ => true)
      [QEvent.add ⟨1, 0, 99, 7, 1, 2, [65]⟩, QEvent.handle,
       QEvent.add ⟨1, 0, 99, 7, 3, 2, [67]⟩, QEvent.handle,
       QEvent.timer, QEvent.timer, QEvent.timer] openHandlerPriorityQueue).2.2 =
      [Emit.retry 2, Emit.retry 2, Emit.retry 2] ∧
    (runEvents (fun _ => true)
      [QEvent.add ⟨1, 0, 99, 7, 1, 2, [65]⟩, QEvent.handle,
       QEvent.add ⟨1, 0, 99, 7, 3, 2, [67]⟩, QEvent.handle,
       QEvent.timer, QEvent.timer, QEvent.timer] openHandlerPriorityQueue).1.sesClosed
      = false := by
  constructor <;>
    simp [runEvents, qHandle, qTimer, retryStep, qAdd, openHandlerPriorityQueue,
      drain_none, drain_some_ok, drain_some_stop, List.lookup]

/-- Claim C3, amended: for a queue with a persistent gap at the expected
number (nothing buffered or staged for it, and the gap not yet probed),
each of the first three timer firings emits RETRY(expected) and leaves the
session open; the fourth firing (after three probes of the same gap) sends
CLOSE, closes the session locally and closes the queue. -/
theorem C3_retry_close_amended (ok : datagram → Bool) (q : QState)
    (hopen : q.closedQ = false) (hses : q.sesClosed = false)
    (hgap : List.lookup q.next q.data = none)
    (htemp : q.temp = []) (hfresh : q.pending ≠ q.next) :
    (runEvents ok [QEvent.timer, QEvent.timer, QEvent.timer] q).2.2 =
      [Emit.retry q.next, Emit.retry q.next, Emit.retry q.next] ∧
    (runEvents ok [QEvent.timer, QEvent.timer, QEvent.timer] q).1.sesClosed = false ∧
    (runEvents ok [QEvent.timer, QEvent.timer, QEvent.timer, QEvent.timer] q).2.2 =
      [Emit.retry q.next, Emit.retry q.next, Emit.retry q.next, Emit.close] ∧
    (runEvents ok [QEvent.timer, QEvent.timer, QEvent.timer, QEvent.timer] q).1.sesClosed
      = true ∧
    (runEvents ok [QEvent.timer, QEvent.timer, QEvent.timer, QEvent.timer] q).1.closedQ
      = true := by
  have hfresh2 : ¬ (q.next = q.pending) := fun h => hfresh h.symm
  refine ⟨?_, ?_, ?_, ?_, ?_⟩ <;>
    simp [runEvents, qTimer, retryStep, hgap, htemp, hopen, hses, hfresh2]

/-- Claim C3 witness: the amended timer behaviour at a concrete queue
whose gap is at number 2 with number 3 already buffered. -/
theorem C3_retry_close_witness :
    (runEvents (fun _ => true) [QEvent.timer, QEvent.timer, QEvent.timer]
      ⟨[], [(3, ⟨1, 0, 99, 7, 3, 2, [67]⟩)], 2, 0, 0, false, false⟩).2.2 =
      [Emit.retry 2, Emit.retry 2, Emit.retry 2] ∧
    (runEvents (fun _ => true) [QEvent.timer, QEvent.timer, QEvent.timer]
      ⟨[], [(3, ⟨1, 0, 99, 7, 3, 2, [67]⟩)], 2, 0, 0, false, false⟩).1.sesClosed = false ∧
    (runEvents (fun _ => true) [QEvent.timer, QEvent.timer, QEvent.timer, QEvent.timer]
      ⟨[], [(3, ⟨1, 0, 99, 7, 3, 2, [67]⟩)], 2, 0, 0, false, false⟩).2.2 =
      [Emit.retry 2, Emit.retry 2, Emit.retry 2, Emit.close] ∧
    (runEvents (fun _ => true) [QEvent.timer, QEvent.timer, QEvent.timer, QEvent.timer]
      ⟨[], [(3, ⟨1, 0, 99, 7, 3, 2, [67]⟩)], 2, 0, 0, false, false⟩).1.sesClosed = true ∧
    (runEvents (fun _ => true) [QEvent.timer, QEvent.timer, QEvent.timer, QEvent.timer]
      ⟨[], [(3, ⟨1, 0, 99, 7, 3, 2, [67]⟩)], 2, 0, 0, false, false⟩).1.closedQ = true :=
  C3_retry_close_amended (fun _ => true)
    ⟨[], [(3, ⟨1, 0, 99, 7, 3, 2, [67]⟩)], 2, 0, 0, false, false⟩
    rfl rfl rfl rfl (by decide)

theorem utf8Bytes_len (r : Nat) : 1 ≤ (utf8Bytes r).length := by
  unfold utf8Bytes
  split_ifs <;> simp

theorem utf8_flatten_len : ∀ (l : List Nat), l.length ≤ ((l.map utf8Bytes).flatten).length
  | [] => Nat.le_refl 0
  | a :: t => by
    have ht := utf8_flatten_len t
    have ha := utf8Bytes_len a
    simp only [List.map_cons, List.flatten_cons, List.length_append, List.length_cons]
    omega

/-! ### Claim C5: the CONNECT payload is parsed without decryption -/

/-- Claim C5: the SOCKS side seals the CONNECT payload with the shared
AEAD key (abstracted as `encryptF`, which like AES-GCM with a prepended
nonce expands its input by 28 bytes), but the receiving handler applies
`payloadConnect.decode` directly to the raw datagram payload — `decrypt`
is never called.  Any successful parse therefore returns a prefix of the
ciphertext as the host, strictly longer than the real host, never the
dialled address. -/
theorem C5_connect_ciphertext_parse (encryptF : List Nat → List Nat) (deviceID : Nat)
    (addr : address)
    (hexp : ∀ x, (encryptF x).length = x.length + 28) :
    (handleStageConnectSession encryptF deviceID addr).payload =
      encryptF (payloadConnectEncode addr.host addr.port) ∧
    (handleStageConnectSession encryptF deviceID addr).command = commandConnect ∧
    (∀ h p, handleConnectParse (handleStageConnectSession encryptF deviceID addr).payload =
        Except.ok (h, p) →
      h = (encryptF (payloadConnectEncode addr.host addr.port)).take
        ((encryptF (payloadConnectEncode addr.host addr.port)).length - 2) ∧
      addr.host.length < h.length) := by
  refine ⟨rfl, rfl, ?_⟩
  intro h p hp
  have hclen := hexp (payloadConnectEncode addr.host addr.port)
  have hel : (payloadConnectEncode addr.host addr.port).length =
      ((addr.host.map utf8Bytes).flatten).length + 2 := by
    simp [payloadConnectEncode, beBytes_two]
  have hhost := utf8_flatten_len addr.host
  simp only [handleConnectParse, payloadConnectDecode, handleStageConnectSession,
    newDatagram] at hp
  rw [if_neg (by omega)] at hp
  have hpair := Except.ok.inj hp
  have hh : (encryptF (payloadConnectEncode addr.host addr.port)).take
      ((encryptF (payloadConnectEncode addr.host addr.port)).length - 2) = h :=
    congrArg Prod.fst hpair
  refine ⟨hh.symm, ?_⟩
  rw [← hh]
  simp only [List.length_take]
  omega

/-- Claim C5 witness: the ciphertext parse at a concrete address and a
concrete 28-byte-expanding sealing function. -/
theorem C5_connect_ciphertext_parse_witness :
    (handleStageConnectSession (fun x => List.replicate 28 0 ++ x) 5 ⟨[101, 120], 443⟩).payload =
      (fun x => List.replicate 28 0 ++ x) (payloadConnectEncode [101, 120] 443) ∧
    (handleStageConnectSession (fun x => List.replicate 28 0 ++ x) 5
      ⟨[101, 120], 443⟩).command = commandConnect ∧
    (∀ h p, handleConnectParse (handleStageConnectSession (fun x => List.replicate 28 0 ++ x) 5
        ⟨[101, 120], 443⟩).payload = Except.ok (h, p) →
      h = ((fun x => List.replicate 28 0 ++ x) (payloadConnectEncode [101, 120] 443)).take
        (((fun x => List.replicate 28 0 ++ x) (payloadConnectEncode [101, 120] 443)).length - 2) ∧
      ([101, 120] : List Nat).length < h.length) :=
  C5_connect_ciphertext_parse (fun x => List.replicate 28 0 ++ x) 5 ⟨[101, 120], 443⟩
    (fun x => by simp [List.length_append, List.length_replicate])

theorem v4aChars_cons (b : Nat) (rest : List Nat) (n : Nat) :
    v4aChars (b :: rest) n = if b = 0 then v4aChars rest (n + 1)
      else (if n = 1 then [b] else []) ++ v4aChars rest n := rfl

theorem v4aChars_ge2 : ∀ (l : List Nat) (n : Nat), 2 ≤ n → v4aChars l n = []
  | [], _, _ => rfl
  | b :: rest, n, h => by
    rw [v4aChars_cons]
    by_cases hb : b = 0
    · rw [if_pos hb]
      exact v4aChars_ge2 rest (n + 1) (by omega)
    · rw [if_neg hb, if_neg (by omega)]
      simp [v4aChars_ge2 rest n h]

theorem v4aChars_collect : ∀ (h l : List Nat), 0 ∉ h →
    v4aChars (h ++ 0 :: l) 1 = h ++ v4aChars l 2
  | [], l, _ => rfl
  | b :: t, l, hmem => by
    have hb : b ≠ 0 := fun h0 => hmem (by simp [h0])
    have ht := v4aChars_collect t l (fun hc => hmem (List.mem_cons_of_mem _ hc))
    simp only [List.cons_append]
    rw [v4aChars_cons, if_neg hb, if_pos rfl, ht]
    simp

theorem v4aChars_skip : ∀ (u l : List Nat), 0 ∉ u →
    v4aChars (u ++ 0 :: l) 0 = v4aChars l 1
  | [], l, _ => rfl
  | b :: t, l, hmem => by
    have hb : b ≠ 0 := fun h0 => hmem (by simp [h0])
    have ht := v4aChars_skip t l (fun hc => hmem (List.mem_cons_of_mem _ hc))
    simp only [List.cons_append]
    rw [v4aChars_cons, if_neg hb, if_neg (by omega)]
    simp [ht]

/-! ### Claim C9: SOCKS4a CONNECT parsing -/

/-- Claim C9: a SOCKS4 CONNECT whose IP field is 0.0.0.X with X nonzero is
treated as 4a: the NUL-terminated user id is skipped, the NUL-terminated
hostname that follows becomes the address host, the port is the big-endian
16-bit field, and the 8-byte reply is 0x00, 0x5A followed by the port and
IP bytes copied from the request; on the spec example the address is
example.com:443. -/
theorem C9_socks4a (p1 p2 X : Nat) (u host rest : List Nat)
    (hX : X ≠ 0) (hu : 0 ∉ u) (hh : 0 ∉ host) (hne : host ≠ []) :
    handleStageConnectV4
        (4 :: 1 :: p1 :: p2 :: 0 :: 0 :: 0 :: X :: (u ++ 0 :: (host ++ 0 :: rest))) =
      Except.ok ({ host := host, port := p1 * 256 + p2 }, [0, 90, p1, p2, 0, 0, 0, X]) ∧
    (58 ∉ host →
      addressString { host := host, port := p1 * 256 + p2 } =
        host ++ 58 :: decRunes (p1 * 256 + p2)) ∧
    handleStageConnectV4 [4, 1, 1, 187, 0, 0, 0, 1, 0,
        101, 120, 97, 109, 112, 108, 101, 46, 99, 111, 109, 0] =
      Except.ok ({ host := [101, 120, 97, 109, 112, 108, 101, 46, 99, 111, 109], port := 443 },
        [0, 90, 1, 187, 0, 0, 0, 1]) ∧
    addressString { host := [101, 120, 97, 109, 112, 108, 101, 46, 99, 111, 109], port := 443 } =
      [101, 120, 97, 109, 112, 108, 101, 46, 99, 111, 109, 58, 52, 52, 51] := by
  refine ⟨?_, ?_, by decide, by simp [addressString, decRunes]⟩
  · have hlen : ¬ ((4 :: 1 :: p1 :: p2 :: 0 :: 0 :: 0 :: X ::
        (u ++ 0 :: (host ++ 0 :: rest))).length < 9) := by
      simp [List.length_cons, List.length_append]
      omega
    have hchars : v4aChars (u ++ 0 :: (host ++ 0 :: rest)) 0 = host := by
      rw [v4aChars_skip u _ hu, v4aChars_collect host _ hh,
        v4aChars_ge2 rest 2 (Nat.le_refl 2), List.append_nil]
    unfold handleStageConnectV4
    rw [if_neg hlen, if_neg (fun hc => hc rfl), if_neg (fun hc => hc rfl)]
    simp only [List.getD_cons_zero, List.getD_cons_succ]
    have hv4a : True ∧ True ∧ True ∧ X ≠ 0 := ⟨trivial, trivial, trivial, hX⟩
    rw [if_pos hv4a]
    have hdrop : (4 :: 1 :: p1 :: p2 :: 0 :: 0 :: 0 :: X ::
        (u ++ 0 :: (host ++ 0 :: rest))).drop 8 = u ++ 0 :: (host ++ 0 :: rest) := rfl
    rw [hdrop, hchars, if_pos (List.length_pos.mpr hne)]
    rfl
  · intro h58
    unfold addressString
    rw [if_neg h58]
    simp

/-- Claim C9 witness: the v4a parse at the concrete spec input. -/
theorem C9_socks4a_witness :
    handleStageConnectV4
        (4 :: 1 :: 1 :: 187 :: 0 :: 0 :: 0 :: 1 ::
          (([] : List Nat) ++ 0 :: ([101, 120, 97, 109, 112, 108, 101, 46, 99, 111, 109] ++
            0 :: ([] : List Nat)))) =
      Except.ok ({ host := [101, 120, 97, 109, 112, 108, 101, 46, 99, 111, 109], port := 1 * 256 + 187 }, [0, 90, 1, 187, 0, 0, 0, 1]) ∧
    (58 ∉ ([101, 120, 97, 109, 112, 108, 101, 46, 99, 111, 109] : List Nat) →
      addressString { host := [101, 120, 97, 109, 112, 108, 101, 46, 99, 111, 109], port := 1 * 256 + 187 } =
        [101, 120, 97, 109, 112, 108, 101, 46, 99, 111, 109] ++ 58 :: decRunes (1 * 256 + 187)) ∧
    handleStageConnectV4 [4, 1, 1, 187, 0, 0, 0, 1, 0,
        101, 120, 97, 109, 112, 108, 101, 46, 99, 111, 109, 0] =
      Except.ok ({ host := [101, 120, 97, 109, 112, 108, 101, 46, 99, 111, 109], port := 443 },
        [0, 90, 1, 187, 0, 0, 0, 1]) ∧
    addressString { host := [101, 120, 97, 109, 112, 108, 101, 46, 99, 111, 109], port := 443 } =
      [101, 120, 97, 109, 112, 108, 101, 46, 99, 111, 109, 58, 52, 52, 51] :=
  C9_socks4a 1 187 1 [] [101, 120, 97, 109, 112, 108, 101, 46, 99, 111, 109] []
    (by decide) (by decide) (by decide) (by decide)

/-! ### The caption frames and their z-compressed truncation (claim C8) -/

/-- The alphabet substitution and UTF-8 layers of `base85Decode` cancel
against `base85Encode` for any alphabet selector, leaving a bare
`ascii85.Decode` run whose destination budget is the encoded length. -/
theorem base85Decode_base85Encode (data : List Nat) (enc : Nat) :
    base85Decode (base85Encode data enc) =
      a85Decode (a85Encode data) (a85Encode data).length := by
  have hmem := a85Encode_mem data
  have hback : ∀ c ∈ a85Encode data, ruToAscii (asciiToRu c) = c := by
    intro c hc
    rcases hmem c hc with ⟨h1, h2⟩ | h
    · exact ruToAscii_asciiToRu c (by omega) (Or.inl h1)
    · exact ruToAscii_asciiToRu c (by omega) (Or.inr h)
  have hsmall : ∀ c ∈ a85Encode data, c < 128 := by
    intro c hc
    rcases hmem c hc with ⟨_, h2⟩ | h <;> omega
  simp only [base85Encode, base85Decode]
  by_cases he : enc = datagramEncodingRU
  · simp only [if_pos he]
    by_cases hdet : ((a85Encode data).map asciiToRu).any (fun r => 127 < r) = true
    · simp only [if_pos hdet, if_true]
      have hmapped : ((a85Encode data).map asciiToRu).map ruToAscii = a85Encode data := by
        rw [List.map_map]
        exact map_id_on _ _ (fun c hc => by simpa [Function.comp] using hback c hc)
      rw [hmapped, utf8_flatten _ hsmall]
    · simp only [if_neg hdet,
        if_neg (show datagramEncodingASCII ≠ datagramEncodingRU from by decide)]
      have hdet2 : ∀ a ∈ a85Encode data, asciiToRu a ≤ 127 := by simpa using hdet
      have hfix : (a85Encode data).map asciiToRu = a85Encode data := by
        apply map_id_on
        intro c hc
        rcases hmem c hc with ⟨h1, h2⟩ | h
        · exact asciiToRu_small c (by omega) (hdet2 c hc)
        · exact asciiToRu_small c (by omega) (hdet2 c hc)
      rw [hfix, utf8_flatten _ hsmall]
  · simp only [if_neg he]
    have hdet : ¬ ((a85Encode data).any (fun r => 127 < r) = true) := by
      intro hcontra
      rw [List.any_eq_true] at hcontra
      obtain ⟨c, hc, hgt⟩ := hcontra
      have := hsmall c hc
      simp only [decide_eq_true_eq] at hgt
      omega
    simp only [if_neg hdet,
      if_neg (show datagramEncodingASCII ≠ datagramEncodingRU from by decide)]
    rw [utf8_flatten _ hsmall]

theorem packBE_eq_zero (b0 b1 b2 b3 : Nat) (hv : packBE [b0, b1, b2, b3] = 0) :
    b0 = 0 ∧ b1 = 0 ∧ b2 = 0 ∧ b3 = 0 := by
  rw [packBE_four] at hv
  omega

theorem a85Encode_append : ∀ (data rest : List Nat), data.length % 4 = 0 →
    a85Encode (data ++ rest) = a85Encode data ++ a85Encode rest
  | [], rest, _ => by simp [a85Encode]
  | [b0], rest, h => by simp at h
  | [b0, b1], rest, h => by simp at h
  | [b0, b1, b2], rest, h => by simp at h
  | b0 :: b1 :: b2 :: b3 :: tail, rest, h => by
    have htail : tail.length % 4 = 0 := by
      simp only [List.length_cons] at h
      omega
    have ih : a85Encode (tail.append rest) = a85Encode tail ++ a85Encode rest :=
      a85Encode_append tail rest htail
    simp only [List.cons_append, a85Encode]
    by_cases hv : packBE [b0, b1, b2, b3] = 0
    · rw [if_pos hv, if_pos hv, ih]
      simp
    · rw [if_neg hv, if_neg hv, ih]
      simp

theorem a85Encode_length_le : ∀ (data : List Nat), data.length % 4 = 0 →
    (a85Encode data).length ≤ 5 * (data.length / 4)
  | [], _ => by simp [a85Encode]
  | [b0], h => by simp at h
  | [b0, b1], h => by simp at h
  | [b0, b1, b2], h => by simp at h
  | b0 :: b1 :: b2 :: b3 :: tail, h => by
    have htail : tail.length % 4 = 0 := by
      simp only [List.length_cons] at h
      omega
    have ih := a85Encode_length_le tail htail
    have hq : (tail.length + 1 + 1 + 1 + 1) / 4 = tail.length / 4 + 1 := by omega
    simp only [a85Encode, List.length_cons]
    by_cases hv : packBE [b0, b1, b2, b3] = 0
    · rw [if_pos hv]
      simp only [List.length_cons]
      rw [hq]
      omega
    · rw [if_neg hv]
      simp only [List.length_append, digits5, List.length_cons, List.length_nil]
      rw [hq]
      omega

theorem a85Loop_early (b : Nat) (rest : List Nat) (bud v nb : Nat) (out : List Nat)
    (h : bud - out.length < 4) :
    a85Loop (b :: rest) bud v nb out = .ok (out, v, nb, true) := by
  simp only [a85Loop]
  rw [if_pos h]

/-- Running `ascii85.Decode` over the encoding of a 4-byte-aligned prefix:
either the whole prefix fits the destination budget and decoding continues
on the remaining input with the prefix written out, or the loop stops early
(no error) having written at most `bud` bytes. -/
theorem a85Loop_encode_prefix : ∀ (data : List Nat) (rest : List Nat) (bud : Nat)
    (out : List Nat), Bytes data → data.length % 4 = 0 → out.length ≤ bud →
    (out.length + data.length ≤ bud ∧
      a85Loop (a85Encode data ++ rest) bud 0 0 out = a85Loop rest bud 0 0 (out ++ data)) ∨
    (∃ out2 : List Nat, a85Loop (a85Encode data ++ rest) bud 0 0 out =
        .ok (out2, 0, 0, true) ∧ out2.length ≤ bud)
  | [], rest, bud, out, _, _, hle => by
    left
    refine ⟨by simpa using hle, ?_⟩
    simp [a85Encode]
  | [b0], _, _, _, _, h, _ => by simp at h
  | [b0, b1], _, _, _, _, h, _ => by simp at h
  | [b0, b1, b2], _, _, _, _, h, _ => by simp at h
  | b0 :: b1 :: b2 :: b3 :: tail, rest, bud, out, hB, h4, hle => by
    have hb0 : b0 < 256 := hB b0 (by simp)
    have hb1 : b1 < 256 := hB b1 (by simp)
    have hb2 : b2 < 256 := hB b2 (by simp)
    have hb3 : b3 < 256 := hB b3 (by simp)
    have hBt : Bytes tail := fun b hb => hB b (by simp [hb])
    have htail : tail.length % 4 = 0 := by
      simp only [List.length_cons] at h4
      omega
    by_cases hbud : bud - out.length < 4
    · right
      refine ⟨out, ?_, hle⟩
      simp only [a85Encode, List.cons_append]
      by_cases hv : packBE [b0, b1, b2, b3] = 0
      · rw [if_pos hv]
        exact a85Loop_early _ _ _ _ _ _ hbud
      · rw [if_neg hv]
        simp only [digits5, List.cons_append]
        exact a85Loop_early _ _ _ _ _ _ hbud
    · have hbud4 : out.length + 4 ≤ bud := by omega
      by_cases hv : packBE [b0, b1, b2, b3] = 0
      · obtain ⟨e0, e1, e2, e3⟩ := packBE_eq_zero b0 b1 b2 b3 hv
        subst e0; subst e1; subst e2; subst e3
        have ih := a85Loop_encode_prefix tail rest bud (out ++ [0, 0, 0, 0]) hBt htail
          (by simp only [List.length_append, List.length_cons, List.length_nil]; omega)
        simp only [a85Encode, if_pos hv, List.cons_append]
        rw [a85Loop_z _ _ _ hbud]
        rcases ih with ⟨hfits, heq⟩ | ⟨out2, heq, hl2⟩
        · left
          refine ⟨?_, ?_⟩
          · simp only [List.length_append, List.length_cons, List.length_nil] at hfits ⊢
            omega
          · rw [heq]
            simp
        · right
          exact ⟨out2, by rw [heq], hl2⟩
      · have hvlt := packBE_lt b0 b1 b2 b3 hb0 hb1 hb2 hb3
        have hg := a85Loop_group (packBE [b0, b1, b2, b3]) (a85Encode tail ++ rest) bud out
          hbud4 hvlt
        rw [beBytes_packBE b0 b1 b2 b3 hb0 hb1 hb2 hb3] at hg
        have ih := a85Loop_encode_prefix tail rest bud (out ++ [b0, b1, b2, b3]) hBt htail
          (by simp only [List.length_append, List.length_cons, List.length_nil]; omega)
        simp only [a85Encode, if_neg hv, List.append_assoc]
        rw [hg]
        rcases ih with ⟨hfits, heq⟩ | ⟨out2, heq, hl2⟩
        · left
          refine ⟨?_, ?_⟩
          · simp only [List.length_append, List.length_cons, List.length_nil] at hfits ⊢
            omega
          · rw [heq]
            simp
        · right
          exact ⟨out2, by rw [heq], hl2⟩

/-- The padding caption `encodeDatagram(newDatagram(0,0,0,nil), enc)` never
decodes: its last eight frame bytes (session low half, number, command) are
zero, so `ascii85.Encode` emits `z` for the two trailing groups, the encoded
string is shorter than the 24-byte frame, `ascii85.Decode` stops early, and
the short result fails the header-length check. -/
theorem caption_malformed (dev enc : Nat) :
    decodeDatagram (encodeDatagram (newDatagram dev 0 0 0 []) enc) =
      Except.error DgErr.malformed := by
  set c := crc32 (serializeDatagram (newDatagram dev 0 0 0 [])) with hc
  have hsplit : writeChecksum (serializeDatagram (newDatagram dev 0 0 0 [])) c =
      [0, 1, c / 16777216 % 256, c / 65536 % 256, c / 256 % 256, c % 256,
       dev / 72057594037927936 % 256, dev / 281474976710656 % 256,
       dev / 1099511627776 % 256, dev / 4294967296 % 256,
       dev / 16777216 % 256, dev / 65536 % 256, dev / 256 % 256, dev % 256, 0, 0] ++
      [0, 0, 0, 0, 0, 0, 0, 0] := by
    rw [frame_explicit]
    simp [newDatagram]
  set F16 : List Nat :=
    [0, 1, c / 16777216 % 256, c / 65536 % 256, c / 256 % 256, c % 256,
     dev / 72057594037927936 % 256, dev / 281474976710656 % 256,
     dev / 1099511627776 % 256, dev / 4294967296 % 256,
     dev / 16777216 % 256, dev / 65536 % 256, dev / 256 % 256, dev % 256, 0, 0] with hF16
  have hlen16 : F16.length = 16 := rfl
  have hmod : F16.length % 4 = 0 := by rw [hlen16]
  have hB16 : Bytes F16 := by
    intro b hb
    rw [hF16] at hb
    simp only [List.mem_cons, List.not_mem_nil, or_false] at hb
    rcases hb with rfl | rfl | rfl | rfl | rfl | rfl | rfl | rfl | rfl | rfl | rfl | rfl |
      rfl | rfl | rfl | rfl
    all_goals first
      | exact Nat.mod_lt _ (by norm_num)
      | norm_num
  have hencF : a85Encode (writeChecksum (serializeDatagram (newDatagram dev 0 0 0 [])) c) =
      a85Encode F16 ++ [122, 122] := by
    rw [hsplit, a85Encode_append F16 [0, 0, 0, 0, 0, 0, 0, 0] hmod]
    rfl
  have he16 : (a85Encode F16).length ≤ 20 := by
    have := a85Encode_length_le F16 hmod
    rw [hlen16] at this
    omega
  have hbudlen : (a85Encode F16 ++ [122, 122]).length = (a85Encode F16).length + 2 := by
    simp
  have hloop : ∃ out2 : List Nat,
      a85Loop (a85Encode F16 ++ [122, 122]) ((a85Encode F16 ++ [122, 122]).length) 0 0 [] =
        Except.ok (out2, 0, 0, true) ∧ out2.length < 24 := by
    rcases a85Loop_encode_prefix F16 [122, 122] ((a85Encode F16 ++ [122, 122]).length) []
        hB16 hmod (by simp) with ⟨hfits, heq⟩ | ⟨out2, heq, hl2⟩
    · rw [heq]
      simp only [List.nil_append]
      by_cases h1 : (a85Encode F16 ++ [122, 122]).length - F16.length < 4
      · exact ⟨F16, a85Loop_early _ _ _ _ _ _ h1, by rw [hlen16]; omega⟩
      · rw [a85Loop_z _ _ _ h1]
        by_cases h2 : (a85Encode F16 ++ [122, 122]).length - (F16 ++ [0, 0, 0, 0]).length < 4
        · refine ⟨F16 ++ [0, 0, 0, 0], a85Loop_early _ _ _ _ _ _ h2, ?_⟩
          simp only [List.length_append, hlen16]
          norm_num
        · exfalso
          simp only [List.length_append, hlen16, List.length_cons, List.length_nil] at h2
          omega
    · refine ⟨out2, heq, ?_⟩
      rw [hbudlen] at hl2
      omega
  obtain ⟨out2, hl2, hlt⟩ := hloop
  have hdecoded : base85Decode (base85Encode
      (writeChecksum (serializeDatagram (newDatagram dev 0 0 0 [])) c) enc) =
      Except.ok out2 := by
    rw [base85Decode_base85Encode, hencF, a85Decode_eq_flush, hl2]
    simp [a85Flush]
  have hcap : encodeDatagram (newDatagram dev 0 0 0 []) enc =
      base85Encode (writeChecksum (serializeDatagram (newDatagram dev 0 0 0 [])) c) enc := rfl
  rw [hcap]
  simp only [decodeDatagram, hdecoded]
  rw [if_pos (show out2.length < datagramHeaderLen by
    simp only [datagramHeaderLen]; omega)]


theorem handleEncoded_error (deviceID : Nat) (s : List Nat) (e : DgErr)
    (h : decodeDatagram s = Except.error e) :
    handleEncoded deviceID s = Except.error e := by
  unfold handleEncoded
  rw [h]

theorem shouldHandleDocCaption_error (deviceID : Nat) (s : List Nat) (e : DgErr)
    (h : decodeDatagram s = Except.error e) :
    shouldHandleDocCaption deviceID s = true := by
  unfold shouldHandleDocCaption
  split
  · rfl
  · rw [handleEncoded_error deviceID s e h]

theorem shouldHandlePhoto_error (deviceID : Nat) (s : List Nat) (e : DgErr)
    (h : decodeDatagram s = Except.error e) :
    shouldHandlePhoto deviceID s = true := by
  unfold shouldHandlePhoto
  split
  · rfl
  · rw [handleEncoded_error deviceID s e h]

theorem handleUpdateDispatch_error (deviceID : Nat) (s : List Nat) (e : DgErr)
    (h : decodeDatagram s = Except.error e) :
    handleUpdateDispatch deviceID s = [] := by
  unfold handleUpdateDispatch
  split
  · rfl
  · rw [handleEncoded_error deviceID s e h]

/-! ### Claim C8: the padding captions -/

set_option maxRecDepth 100000 in
/-- Claim C8, counterexample to the literal statement: the document-URL
padding caption is built with `newDatagram`, whose version is the constant
1, not 0 — and it does not even decode: its session, number and command
fields are all zero, so `ascii85.Encode` compresses the two all-zero
trailing groups to `z`, the encoded caption is shorter than the 24-byte
frame, and `ascii85.Decode` (whose destination buffer is sized by the
encoded length) stops early, leaving a short buffer that `decodeDatagram`
rejects as malformed.  A remote peer (device 43 here) therefore treats the
captioned item as handleable rather than recognising a zero-version
sentinel. -/
theorem C8_caption_counterexample :
    (newDatagram 42 0 0 0 []).version = 1 ∧
    decodeDatagram (docCaption 42) = Except.error DgErr.malformed ∧
    shouldHandleDocCaption 43 (docCaption 42) = true :=
  ⟨by decide, by decide, by decide⟩

/-- Claim C8, amended: for every device id and both caption kinds (document
URL and QR photo), the padding caption is the encoding of
`newDatagram(0, 0, 0, nil)` — a version-1 frame, not a zero-version one —
and decoding it fails as malformed on every peer (the all-zero trailing
groups are z-compressed below the decoder's budget), so `shouldHandleDoc` /
`shouldHandlePhoto` report the captioned item as handleable on every
device, and the caption itself never dispatches a datagram. -/
theorem C8_caption_amended (dev : Nat) :
    decodeDatagram (docCaption dev) = Except.error DgErr.malformed ∧
    decodeDatagram (qrCaption dev) = Except.error DgErr.malformed ∧
    (newDatagram dev 0 0 0 []).version = 1 ∧
    (∀ remote, shouldHandleDocCaption remote (docCaption dev) = true ∧
      shouldHandlePhoto remote (qrCaption dev) = true ∧
      handleUpdateDispatch remote (docCaption dev) = [] ∧
      handleUpdateDispatch remote (qrCaption dev) = []) :=
  ⟨caption_malformed dev datagramEncodingASCII,
   caption_malformed dev datagramEncodingRU,
   rfl,
   fun remote =>
    ⟨shouldHandleDocCaption_error remote (docCaption dev) DgErr.malformed
      (caption_malformed dev datagramEncodingASCII),
     shouldHandlePhoto_error remote (qrCaption dev) DgErr.malformed
      (caption_malformed dev datagramEncodingRU),
     handleUpdateDispatch_error remote (docCaption dev) DgErr.malformed
      (caption_malformed dev datagramEncodingASCII),
     handleUpdateDispatch_error remote (qrCaption dev) DgErr.malformed
      (caption_malformed dev datagramEncodingRU)⟩⟩

/-! ### Chunking and the carrier planner (claim C6) -/

/-- The `methodDoc` limits are independent of the QR configuration. -/
theorem methodsMaxLenEncoded_doc (qrMax : Nat) :
    methodsMaxLenEncoded qrMax methodDoc = 1048576 := by
  unfold methodsMaxLenEncoded methodDoc methodMessage methodPost methodComment
  norm_num

theorem methodsMaxLenPayload_doc (qrMax : Nat) :
    methodsMaxLenPayload qrMax methodDoc = 838833 := by
  unfold methodsMaxLenPayload
  rw [methodsMaxLenEncoded_doc]
  unfold datagramCalcMaxLen datagramHeaderLenEncoded datagram.LenEncoded datagram.Len
    newDatagram datagramHeaderLen
  norm_num


theorem chunksLoop_nil (size : Nat) : chunksLoop [] size = [] := by
  rw [chunksLoop.eq_def]
  simp

theorem chunksLoop_cons (b : List Nat) (size : Nat) (hb : b ≠ []) (hs : size ≠ 0) :
    chunksLoop b size = b.take size :: chunksLoop (b.drop size) size := by
  rw [chunksLoop.eq_def]
  rw [if_neg hb, if_neg hs]

/-- The chunking loop of `bytesToChunks` partitions its input: the chunks
concatenate back to the original bytes. -/
theorem chunksLoop_flatten (size : Nat) (hs : size ≠ 0) : ∀ (n : Nat) (b : List Nat),
    b.length ≤ n → (chunksLoop b size).flatten = b := by
  intro n
  induction n with
  | zero =>
    intro b hb
    have : b = [] := List.eq_nil_of_length_eq_zero (by omega)
    subst this
    simp [chunksLoop_nil]
  | succ n ih =>
    intro b hb
    by_cases hempty : b = []
    · subst hempty
      simp [chunksLoop_nil]
    · rw [chunksLoop_cons b size hempty hs]
      simp only [List.flatten_cons]
      have hlt : (b.drop size).length ≤ n := by
        have hpos : 0 < b.length := List.length_pos.mpr hempty
        have : 0 < size := Nat.pos_of_ne_zero hs
        simp only [List.length_drop]
        omega
      rw [ih (b.drop size) hlt]
      exact List.take_append_drop size b

/-- `bytesToChunks` with `count = 2`: one chunk when the input fits the
size, else the head chunk plus everything else merged into a second one. -/
theorem bytesToChunks_two (b : List Nat) (size : Nat) (hs : size ≠ 0) (hb : b ≠ []) :
    bytesToChunks b size 2 =
      if b.length ≤ size then [b] else [b.take size, b.drop size] := by
  unfold bytesToChunks
  rw [if_neg (by simp [hs])]
  by_cases hle : b.length ≤ size
  · rw [if_pos hle]
    have hchunks : chunksLoop b size = [b] := by
      rw [chunksLoop_cons b size hb hs, List.take_of_length_le hle,
        List.drop_eq_nil_of_le hle, chunksLoop_nil]
    rw [hchunks]
    simp
  · rw [if_neg hle]
    have hdrop : b.drop size ≠ [] := by
      intro hc
      have := congrArg List.length hc
      simp only [List.length_drop, List.length_nil] at this
      omega
    rw [chunksLoop_cons b size hb hs, chunksLoop_cons (b.drop size) size hdrop hs]
    rw [if_pos (by simp)]
    simp only [List.take_succ_cons, List.take_zero, List.drop_succ_cons, List.drop_zero]
    have hfl : ((b.drop size).take size :: chunksLoop ((b.drop size).drop size) size).flatten
        = b.drop size := by
      rw [show (b.drop size).take size :: chunksLoop ((b.drop size).drop size) size =
          chunksLoop (b.drop size) size from (chunksLoop_cons _ _ hdrop hs).symm]
      exact chunksLoop_flatten size hs (b.drop size).length _ (Nat.le_refl _)
    rw [hfl]
    rfl

/-- Any fragment whose payload fits the derived per-method payload limit of
`methodDoc` (838833 bytes) stays within the method's maximum encoded length
(1 MiB). -/
theorem fragment_lenEncoded (deviceID ses n cmd : Nat) (pl : List Nat)
    (hlen : pl.length ≤ 838833) :
    (newDatagram deviceID ses n cmd pl).LenEncoded ≤ 1048576 := by
  unfold datagram.LenEncoded datagram.Len newDatagram datagramHeaderLen
  simp only []
  omega

/-- One iteration of the fragmenting loop when the remaining payload fits a
single chunk: it becomes the final fragment. -/
theorem createPlanLoop_step_small (deviceID ses cmd qrMax f num : Nat)
    (methods : List Nat) (frags : List datagram) (b : Nat) (tl : List Nat)
    (hle : (b :: tl).length ≤ 838833)
    (hguard : methods.length < 1000) :
    createPlanLoop deviceID ses cmd qrMax (f + 1) (b :: tl) num methods frags =
      createPlanLoop deviceID ses cmd qrMax f [] (num + 1) (methods ++ [methodDoc])
        (frags ++ [newDatagram deviceID ses (num + 1) cmd (b :: tl)]) := by
  have hfg := fragment_lenEncoded deviceID ses (num + 1) cmd (b :: tl) hle
  simp only [createPlanLoop, methodsMaxLenPayload_doc, methodsMaxLenEncoded_doc]
  rw [bytesToChunks_two (b :: tl) 838833 (by norm_num) (by simp)]
  rw [if_pos hle]
  simp only [List.getD_cons_zero, List.getD_cons_succ, List.length_singleton,
    List.length_cons, List.length_nil, List.length_append]
  split_ifs <;> first | rfl | simp [createPlanLoop] | omega | simp_all

/-- One iteration of the fragmenting loop when the remaining payload
exceeds a chunk: the head chunk becomes a fragment and the loop continues
on the rest. -/
theorem createPlanLoop_step_big (deviceID ses cmd qrMax f num : Nat)
    (methods : List Nat) (frags : List datagram) (b : Nat) (tl : List Nat)
    (hgt : ¬ (b :: tl).length ≤ 838833)
    (hguard : methods.length < 1000) :
    createPlanLoop deviceID ses cmd qrMax (f + 1) (b :: tl) num methods frags =
      createPlanLoop deviceID ses cmd qrMax f ((b :: tl).drop 838833) (num + 1)
        (methods ++ [methodDoc])
        (frags ++ [newDatagram deviceID ses (num + 1) cmd ((b :: tl).take 838833)]) := by
  have htake : ((b :: tl).take 838833).length ≤ 838833 := by
    simp [List.length_take]
  have hfg := fragment_lenEncoded deviceID ses (num + 1) cmd ((b :: tl).take 838833) htake
  simp only [createPlanLoop, methodsMaxLenPayload_doc, methodsMaxLenEncoded_doc]
  rw [bytesToChunks_two (b :: tl) 838833 (by norm_num) (by simp)]
  rw [if_neg hgt]
  simp only [List.getD_cons_zero, List.getD_cons_succ, List.length_singleton,
    List.length_cons, List.length_nil, List.length_append]
  split_ifs <;> first | rfl | omega | simp_all

/-- One iteration of the fragmenting loop once the 1000-method guard has
been reached: the loop stops with the protection error. -/
theorem createPlanLoop_step_guard (deviceID ses cmd qrMax f num : Nat)
    (methods : List Nat) (frags : List datagram) (b : Nat) (tl : List Nat)
    (hguard : 1000 ≤ methods.length) :
    createPlanLoop deviceID ses cmd qrMax (f + 1) (b :: tl) num methods frags =
      Except.error "infinite loop protection" := by
  simp only [createPlanLoop, methodsMaxLenPayload_doc, methodsMaxLenEncoded_doc]
  rw [bytesToChunks_two (b :: tl) 838833 (by norm_num) (by simp)]
  by_cases hle : (b :: tl).length ≤ 838833
  · have hfg := fragment_lenEncoded deviceID ses (num + 1) cmd (b :: tl) hle
    rw [if_pos hle]
    simp only [List.getD_cons_zero, List.getD_cons_succ, List.length_singleton,
      List.length_cons, List.length_nil, List.length_append]
    split_ifs <;> first | rfl | omega | simp_all
  · have htake : ((b :: tl).take 838833).length ≤ 838833 := by
      simp [List.length_take]
    have hfg := fragment_lenEncoded deviceID ses (num + 1) cmd ((b :: tl).take 838833) htake
    rw [if_neg hle]
    simp only [List.getD_cons_zero, List.getD_cons_succ, List.length_singleton,
      List.length_cons, List.length_nil, List.length_append]
    split_ifs <;> first | rfl | omega | simp_all

/-- The fragmenting loop, success half: a payload that fits `k` chunks,
with `k` within both the fuel and the room left under the 1000-method
guard, yields one `methodDoc` fragment per head-first chunk, numbered
consecutively from `num + 1`, with payloads concatenating back to the
input and every fragment within the limits. -/
theorem createPlanLoop_spec (deviceID ses cmd qrMax : Nat) : ∀ (k fuel : Nat)
    (payload : List Nat) (num : Nat) (methods : List Nat) (frags : List datagram),
    payload.length ≤ k * 838833 → k ≤ fuel → methods.length + k ≤ 1000 →
    ∃ nf : List datagram,
      createPlanLoop deviceID ses cmd qrMax fuel payload num methods frags =
        Except.ok (methods ++ List.replicate nf.length methodDoc, frags ++ nf,
          num + nf.length) ∧
      (nf.map (fun f => f.payload)).flatten = payload ∧
      nf.map (fun f => f.number) = List.range' (num + 1) nf.length ∧
      (∀ fg ∈ nf, fg.LenEncoded ≤ 1048576 ∧ fg.command = cmd ∧ fg.session = ses ∧
        fg.device = deviceID ∧ fg.payload.length ≤ 838833) := by
  intro k
  induction k with
  | zero =>
    intro fuel payload num methods frags hlen _hfuel _hroom
    have hp : payload = [] := List.eq_nil_of_length_eq_zero (by omega)
    subst hp
    refine ⟨[], ?_, rfl, rfl, by simp⟩
    simp [createPlanLoop]
  | succ k ih =>
    intro fuel payload num methods frags hlen hfuel hroom
    rcases payload with _ | ⟨b, tl⟩
    · refine ⟨[], ?_, rfl, rfl, by simp⟩
      simp [createPlanLoop]
    · rcases fuel with _ | f
      · omega
      have hguard : methods.length < 1000 := by omega
      by_cases hle : (b :: tl).length ≤ 838833
      · rw [createPlanLoop_step_small deviceID ses cmd qrMax f num methods frags b tl
          hle hguard]
        obtain ⟨nf2, hrec, hfl, hnums, hmem⟩ := ih f [] (num + 1) (methods ++ [methodDoc])
          (frags ++ [newDatagram deviceID ses (num + 1) cmd (b :: tl)]) (by simp)
          (by omega)
          (by simp only [List.length_append, List.length_singleton]; omega)
        refine ⟨newDatagram deviceID ses (num + 1) cmd (b :: tl) :: nf2, ?_, ?_, ?_, ?_⟩
        · rw [hrec]
          have h1 : (methods ++ [methodDoc]) ++ List.replicate nf2.length methodDoc =
              methods ++ List.replicate
                (newDatagram deviceID ses (num + 1) cmd (b :: tl) :: nf2).length methodDoc := by
            simp [List.replicate_succ, List.append_assoc]
          have h2 : (frags ++ [newDatagram deviceID ses (num + 1) cmd (b :: tl)]) ++ nf2 =
              frags ++ (newDatagram deviceID ses (num + 1) cmd (b :: tl) :: nf2) := by
            simp
          have h3 : num + 1 + nf2.length =
              num + (newDatagram deviceID ses (num + 1) cmd (b :: tl) :: nf2).length := by
            simp only [List.length_cons]
            omega
          rw [h1, h2, h3]
        · simp only [List.map_cons, List.flatten_cons, hfl, newDatagram]
          simp
        · simp only [List.map_cons, List.length_cons, hnums]
          rfl
        · intro fg2 hfg2
          rcases List.mem_cons.mp hfg2 with rfl | h2
          · exact ⟨fragment_lenEncoded deviceID ses (num + 1) cmd (b :: tl) hle,
              rfl, rfl, rfl, hle⟩
          · exact hmem fg2 h2
      · rw [createPlanLoop_step_big deviceID ses cmd qrMax f num methods frags b tl
          hle hguard]
        have htake : ((b :: tl).take 838833).length ≤ 838833 := by
          simp [List.length_take]
        obtain ⟨nf2, hrec, hfl, hnums, hmem⟩ := ih f ((b :: tl).drop 838833) (num + 1)
          (methods ++ [methodDoc])
          (frags ++ [newDatagram deviceID ses (num + 1) cmd ((b :: tl).take 838833)])
          (by simp only [List.length_drop]; simp only [List.length_cons] at hlen ⊢; omega)
          (by omega)
          (by simp only [List.length_append, List.length_singleton]; omega)
        refine ⟨newDatagram deviceID ses (num + 1) cmd ((b :: tl).take 838833) :: nf2,
          ?_, ?_, ?_, ?_⟩
        · rw [hrec]
          have h1 : (methods ++ [methodDoc]) ++ List.replicate nf2.length methodDoc =
              methods ++ List.replicate
                (newDatagram deviceID ses (num + 1) cmd ((b :: tl).take 838833)
                  :: nf2).length methodDoc := by
            simp [List.replicate_succ, List.append_assoc]
          have h2 : (frags ++ [newDatagram deviceID ses (num + 1) cmd
              ((b :: tl).take 838833)]) ++ nf2 = frags ++
                (newDatagram deviceID ses (num + 1) cmd ((b :: tl).take 838833) :: nf2) := by
            simp
          have h3 : num + 1 + nf2.length = num +
              (newDatagram deviceID ses (num + 1) cmd ((b :: tl).take 838833)
                :: nf2).length := by
            simp only [List.length_cons]
            omega
          rw [h1, h2, h3]
        · simp only [List.map_cons, List.flatten_cons, hfl, newDatagram]
          exact List.take_append_drop 838833 (b :: tl)
        · simp only [List.map_cons, List.length_cons, hnums]
          rfl
        · intro fg2 hfg2
          rcases List.mem_cons.mp hfg2 with rfl | h2
          · exact ⟨fragment_lenEncoded deviceID ses (num + 1) cmd
              ((b :: tl).take 838833) htake, rfl, rfl, rfl, htake⟩
          · exact hmem fg2 h2

/-- The fragmenting loop, failure half: a payload too large for the room
left under the 1000-method guard makes the loop stop with the
"infinite loop protection" error (given enough fuel to reach the guard,
as `createPlan` always provides). -/
theorem createPlanLoop_err (deviceID ses cmd qrMax : Nat) : ∀ (k fuel : Nat)
    (payload : List Nat) (num : Nat) (methods : List Nat) (frags : List datagram),
    1000 - methods.length ≤ k → k * 838833 < payload.length →
    1000 - methods.length < fuel →
    createPlanLoop deviceID ses cmd qrMax fuel payload num methods frags =
      Except.error "infinite loop protection" := by
  intro k
  induction k with
  | zero =>
    intro fuel payload num methods frags hroom hlen hfuel
    rcases payload with _ | ⟨b, tl⟩
    · simp at hlen
    rcases fuel with _ | f
    · omega
    exact createPlanLoop_step_guard deviceID ses cmd qrMax f num methods frags b tl
      (by omega)
  | succ k ih =>
    intro fuel payload num methods frags hroom hlen hfuel
    rcases payload with _ | ⟨b, tl⟩
    · simp at hlen
    rcases fuel with _ | f
    · omega
    by_cases hm : 1000 ≤ methods.length
    · exact createPlanLoop_step_guard deviceID ses cmd qrMax f num methods frags b tl
        (by omega)
    · have hle : ¬ (b :: tl).length ≤ 838833 := by
        have h1 : 1 ≤ k + 1 := by omega
        have h2 := Nat.mul_le_mul_right 838833 h1
        omega
      rw [createPlanLoop_step_big deviceID ses cmd qrMax f num methods frags b tl hle
        (by omega)]
      exact ih f ((b :: tl).drop 838833) (num + 1) (methods ++ [methodDoc])
        (frags ++ [newDatagram deviceID ses (num + 1) cmd ((b :: tl).take 838833)])
        (by simp only [List.length_append, List.length_singleton]; omega)
        (by simp only [List.length_drop]; simp only [List.length_cons] at hlen ⊢; omega)
        (by simp only [List.length_append, List.length_singleton]; omega)

/-! ### Claim C6: fragmenting of big unnumbered FORWARD datagrams -/

/-- Claim C6: an unnumbered FORWARD datagram whose encoded length exceeds
the small-method limit is split head-first into `methodDoc` fragments:
each fragment gets the next fresh sequence number (strictly increasing
from `num + 1`), each stays within the method's maximum encoded length
via the derived payload limit, and the fragment payloads concatenate to
the original payload; a payload that cannot be covered within the
1000-iteration guard makes the planner fail with the protection error
instead of looping. -/
theorem C6_fragmenting (deviceID qrMax num : Nat) (unauthorized hasPosts : Bool)
    (pickSmall : List Nat → Nat) (dg : datagram)
    (hcmd : dg.command = commandForward) (hnum : dg.number = 0)
    (hbig : min (methodsMaxLenEncoded qrMax methodQR)
      (methodsMaxLenEncoded qrMax methodPhotoComment) < dg.LenEncoded) :
    (dg.payload.length ≤ 1000 * 838833 →
      ∃ frags : List datagram,
        createPlan deviceID unauthorized hasPosts qrMax pickSmall num dg =
          Except.ok (List.replicate frags.length methodDoc, frags, num + frags.length) ∧
        (frags.map (fun f => f.payload)).flatten = dg.payload ∧
        frags.map (fun f => f.number) = List.range' (num + 1) frags.length ∧
        (∀ fg ∈ frags, fg.LenEncoded ≤ methodsMaxLenEncoded qrMax methodDoc ∧
          fg.command = dg.command ∧ fg.session = dg.session ∧ fg.device = deviceID ∧
          fg.payload.length ≤ methodsMaxLenPayload qrMax methodDoc)) ∧
    (1000 * 838833 < dg.payload.length →
      createPlan deviceID unauthorized hasPosts qrMax pickSmall num dg =
        Except.error "infinite loop protection") := by
  have hplan : createPlan deviceID unauthorized hasPosts qrMax pickSmall num dg =
      createPlanLoop deviceID dg.session dg.command qrMax 1002 dg.payload num [] [] := by
    unfold createPlan
    rw [if_neg (show ¬ (dg.command ≠ commandForward ∨ dg.LenEncoded ≤
        min (methodsMaxLenEncoded qrMax methodQR)
          (methodsMaxLenEncoded qrMax methodPhotoComment))
      from not_or.mpr ⟨fun hc => hc hcmd, by omega⟩)]
    rw [if_neg (show ¬ (dg.number ≠ 0) from fun hc => hc hnum)]
  constructor
  · intro hlen
    obtain ⟨nf, hok, hfl, hnums, hmem⟩ := createPlanLoop_spec deviceID dg.session
      dg.command qrMax 1000 1002 dg.payload num [] [] hlen (by omega) (by simp)
    refine ⟨nf, ?_, hfl, hnums, ?_⟩
    · rw [hplan, hok]
      simp
    · intro fg hfg
      have h := hmem fg hfg
      rw [methodsMaxLenEncoded_doc, methodsMaxLenPayload_doc]
      exact h
  · intro hlen
    rw [hplan]
    exact createPlanLoop_err deviceID dg.session dg.command qrMax 1000 1002 dg.payload
      num [] [] (by simp) hlen (by simp)

/-- Claim C6 witness: the fragmenting guarantees at a concrete unnumbered
FORWARD datagram that exceeds the (zero) QR small-method limit. -/
theorem C6_fragmenting_witness :
    (((⟨1, 0, 77, 6, 0, 2, [7, 7, 7]⟩ : datagram)).payload.length ≤ 1000 * 838833 →
      ∃ frags : List datagram,
        createPlan 9 false false 0 (fun _ => methodMessage) 0
            ⟨1, 0, 77, 6, 0, 2, [7, 7, 7]⟩ =
          Except.ok (List.replicate frags.length methodDoc, frags, 0 + frags.length) ∧
        (frags.map (fun f => f.payload)).flatten =
          (⟨1, 0, 77, 6, 0, 2, [7, 7, 7]⟩ : datagram).payload ∧
        frags.map (fun f => f.number) = List.range' (0 + 1) frags.length ∧
        (∀ fg ∈ frags, fg.LenEncoded ≤ methodsMaxLenEncoded 0 methodDoc ∧
          fg.command = (⟨1, 0, 77, 6, 0, 2, [7, 7, 7]⟩ : datagram).command ∧
          fg.session = (⟨1, 0, 77, 6, 0, 2, [7, 7, 7]⟩ : datagram).session ∧
          fg.device = 9 ∧
          fg.payload.length ≤ methodsMaxLenPayload 0 methodDoc)) ∧
    (1000 * 838833 < ((⟨1, 0, 77, 6, 0, 2, [7, 7, 7]⟩ : datagram)).payload.length →
      createPlan 9 false false 0 (fun _ => methodMessage) 0
          ⟨1, 0, 77, 6, 0, 2, [7, 7, 7]⟩ =
        Except.error "infinite loop protection") :=
  C6_fragmenting 9 0 0 false false (fun _ => methodMessage)
    ⟨1, 0, 77, 6, 0, 2, [7, 7, 7]⟩ rfl rfl (by decide)

/-! ### The dispatch order of the handler queue (claim C1) -/

theorem lookup_mem {β : Type} : ∀ (l : List (Nat × β)) (k : Nat) (v : β),
    List.lookup k l = some v → (k, v) ∈ l
  | [], k, v, h => by simp [List.lookup] at h
  | (k2, v2) :: t, k, v, h => by
    by_cases hk : k = k2
    · subst hk
      simp only [List.lookup, beq_self_eq_true] at h
      injection h with he
      subst he
      exact List.mem_cons_self _ _
    · have hbeq : (k == k2) = false := beq_eq_false_iff_ne.mpr hk
      simp only [List.lookup, hbeq] at h
      exact List.mem_cons_of_mem _ (lookup_mem t k v h)

theorem mem_le_foldr_max : ∀ (l : List Nat) (n : Nat), n ∈ l → n ≤ l.foldr Nat.max 0
  | [], n, hm => by simp at hm
  | a :: t, n, hm => by
    rcases List.mem_cons.mp hm with rfl | h2
    · simp only [List.foldr_cons]
      exact Nat.le_max_left _ _
    · simp only [List.foldr_cons]
      exact Nat.le_trans (mem_le_foldr_max t n h2) (Nat.le_max_right _ _)

/-- Folding the staged datagrams into the buffer keeps every entry keyed by
its own sequence number. -/
theorem foldl_mapinv (temp : List datagram) : ∀ (m : List (Nat × datagram)),
    (∀ kv ∈ m, kv.2.number = kv.1) →
    ∀ kv ∈ temp.foldl (fun m2 dg => (dg.number, dg) :: m2) m, kv.2.number = kv.1 := by
  induction temp with
  | nil => intro m hm; exact hm
  | cons dg t ih =>
    intro m hm
    simp only [List.foldl_cons]
    apply ih
    intro kv hkv
    rcases List.mem_cons.mp hkv with rfl | h2
    · rfl
    · exact hm kv h2

/-- The dispatch loop hands `handleCommand` exactly the run of consecutive
buffered numbers starting at the expected one, and (unless it stopped on a
failed command) advances the expected counter past them. -/
theorem drain_trace (ok : datagram → Bool) (data : List (Nat × datagram))
    (hinv : ∀ kv ∈ data, kv.2.number = kv.1) : ∀ (k next : Nat),
    (data.map Prod.fst).foldr Nat.max 0 + 1 - next ≤ k →
    ((drain ok data next).1.map (fun p => p.1.number) =
      List.range' next (drain ok data next).1.length ∧
     ((drain ok data next).2.2 = false →
      (drain ok data next).2.1 = next + (drain ok data next).1.length)) := by
  intro k
  induction k with
  | zero =>
    intro next hk
    have hnone : List.lookup next data = none := by
      rcases hl : List.lookup next data with _ | dg
      · rfl
      · exfalso
        have hmem := List.mem_map_of_mem Prod.fst (lookup_mem data next dg hl)
        have := mem_le_foldr_max (data.map Prod.fst) next hmem
        omega
    rw [drain_none ok data next hnone]
    simp [List.range']
  | succ k ih =>
    intro next hk
    rcases hl : List.lookup next data with _ | dg
    · rw [drain_none ok data next hl]
      simp [List.range']
    · have hnum : dg.number = next := hinv (next, dg) (lookup_mem data next dg hl)
      have hkey : next ≤ (data.map Prod.fst).foldr Nat.max 0 :=
        mem_le_foldr_max _ next (List.mem_map_of_mem Prod.fst (lookup_mem data next dg hl))
      by_cases hok : ok dg = true
      · rw [drain_some_ok ok data next dg hl hok]
        have ih2 := ih (next + 1) (by omega)
        constructor
        · simp only [List.map_cons, List.length_cons]
          rw [ih2.1, hnum]
          rfl
        · intro hstop
          simp only [List.length_cons]
          simp only [] at hstop
          rw [ih2.2 hstop]
          omega
      · have hokf : ok dg = false := by simpa using hok
        rw [drain_some_stop ok data next dg hl hokf]
        constructor
        · simp [hnum, List.range']
        · intro hstop
          simp at hstop

theorem range1_append (s m n : Nat) :
    List.range' s m ++ List.range' (s + m) n = List.range' s (m + n) := by
  have h := List.range'_append s m n 1
  rw [Nat.add_comm m n]
  simp only [one_mul] at h
  exact h

/-- `qHandle` on an open queue, unfolded. -/
theorem qHandle_open (ok : datagram → Bool) (q : QState) (hc : q.closedQ = false) :
    qHandle ok q =
      (let D := q.temp.foldl (fun m dg => (dg.number, dg) :: m) q.data
       let r := drain ok D q.next
       if r.2.2 then
         ({ q with
            temp := [], data := [], next := r.2.1, closedQ := true, sesClosed := true },
          r.1, [Emit.close])
       else ({ q with temp := [], data := D, next := r.2.1 }, r.1, [])) := by
  simp [qHandle, hc]

/-- Across any event sequence, the datagrams handed to `handleCommand` from
a fresh-or-running queue carry consecutive numbers starting at the queue's
expected counter; a closed queue dispatches nothing. -/
theorem runEvents_trace (ok : datagram → Bool) : ∀ (es : List QEvent) (q : QState),
    (∀ kv ∈ q.data, kv.2.number = kv.1) →
    ((q.closedQ = true → (runEvents ok es q).2.1 = []) ∧
     (q.closedQ = false → (runEvents ok es q).2.1.map (fun p => p.1.number) =
       List.range' q.next (runEvents ok es q).2.1.length))
  | [], q, hinv => by
    constructor <;> intro h <;> simp [runEvents]
  | QEvent.add dg :: es, q, hinv => by
    simp only [runEvents]
    by_cases hc : q.closedQ = true
    · have hq : (qAdd q dg).1 = q := by simp [qAdd, hc]
      rw [hq]
      have ih := runEvents_trace ok es q hinv
      refine ⟨fun _ => by simpa using ih.1 hc, fun hopen => ?_⟩
      rw [hc] at hopen
      exact absurd hopen (by simp)
    · have hc2 : q.closedQ = false := by simpa using hc
      have hq : (qAdd q dg).1 = { q with temp := q.temp ++ [dg] } := by simp [qAdd, hc2]
      rw [hq]
      have ih := runEvents_trace ok es { q with temp := q.temp ++ [dg] } hinv
      refine ⟨fun hcl => ?_, fun hopen => ?_⟩
      · rw [hc2] at hcl
        exact absurd hcl (by simp)
      · simpa using ih.2 hc2
  | QEvent.timer :: es, q, hinv => by
    simp only [runEvents]
    by_cases hc : q.closedQ = true
    · have hq : qTimer q = (q, []) := by simp [qTimer, hc]
      rw [hq]
      have ih := runEvents_trace ok es q hinv
      refine ⟨fun _ => by simpa using ih.1 hc, fun hopen => ?_⟩
      rw [hc] at hopen
      exact absurd hopen (by simp)
    · have hc2 : q.closedQ = false := by simpa using hc
      by_cases hstop : (retryStep q).2.2 = true
      · have hq : (qTimer q).1 =
            { (retryStep q).1 with
              temp := [], data := [], closedQ := true, sesClosed := true } := by
          simp [qTimer, hc2, hstop]
        rw [hq]
        have ih := runEvents_trace ok es
          { (retryStep q).1 with
            temp := [], data := [], closedQ := true, sesClosed := true } (by simp)
        refine ⟨fun hcl => ?_, fun hopen => ?_⟩
        · rw [hc2] at hcl
          exact absurd hcl (by simp)
        · rw [ih.1 rfl]
          simp [List.range']
      · have hstop2 : (retryStep q).2.2 = false := by simpa using hstop
        have hq : (qTimer q).1 = (retryStep q).1 := by simp [qTimer, hc2, hstop2]
        rw [hq]
        have hfields : (retryStep q).1.data = q.data ∧ (retryStep q).1.next = q.next ∧
            (retryStep q).1.closedQ = q.closedQ := by
          unfold retryStep
          split_ifs <;> simp
        have ih := runEvents_trace ok es (retryStep q).1 (by rw [hfields.1]; exact hinv)
        refine ⟨fun hcl => ?_, fun hopen => ?_⟩
        · rw [hc2] at hcl
          exact absurd hcl (by simp)
        · have hr := ih.2 (by rw [hfields.2.2]; exact hc2)
          rw [hfields.2.1] at hr
          simpa using hr
  | QEvent.handle :: es, q, hinv => by
    simp only [runEvents]
    by_cases hc : q.closedQ = true
    · have hq : qHandle ok q = (q, [], []) := by simp [qHandle, hc]
      rw [hq]
      have ih := runEvents_trace ok es q hinv
      refine ⟨fun _ => by simpa using ih.1 hc, fun hopen => ?_⟩
      rw [hc] at hopen
      exact absurd hopen (by simp)
    · have hc2 : q.closedQ = false := by simpa using hc
      rw [qHandle_open ok q hc2]
      simp only []
      have hinv2 := foldl_mapinv q.temp q.data hinv
      have hdt := drain_trace ok (q.temp.foldl (fun m2 dg => (dg.number, dg) :: m2) q.data)
        hinv2 (((q.temp.foldl (fun m2 dg => (dg.number, dg) :: m2) q.data).map
          Prod.fst).foldr Nat.max 0 + 1 - q.next) q.next (Nat.le_refl _)
      by_cases hstop : (drain ok (q.temp.foldl (fun m2 dg => (dg.number, dg) :: m2) q.data)
          q.next).2.2 = true
      · rw [if_pos hstop]
        have ih := runEvents_trace ok es
          { q with
            temp := [], data := [],
            next := (drain ok (q.temp.foldl (fun m2 dg => (dg.number, dg) :: m2) q.data)
              q.next).2.1,
            closedQ := true, sesClosed := true } (by simp)
        refine ⟨fun hcl => ?_, fun hopen => ?_⟩
        · rw [hc2] at hcl
          exact absurd hcl (by simp)
        · rw [ih.1 rfl]
          simp only [List.append_nil]
          exact hdt.1
      · have hstop2 : (drain ok (q.temp.foldl (fun m2 dg => (dg.number, dg) :: m2) q.data)
            q.next).2.2 = false := by simpa using hstop
        rw [if_neg (by simp [hstop2])]
        have ih := runEvents_trace ok es
          { q with
            temp := [],
            data := q.temp.foldl (fun m2 dg => (dg.number, dg) :: m2) q.data,
            next := (drain ok (q.temp.foldl (fun m2 dg => (dg.number, dg) :: m2) q.data)
              q.next).2.1 } hinv2
        refine ⟨fun hcl => ?_, fun hopen => ?_⟩
        · rw [hc2] at hcl
          exact absurd hcl (by simp)
        · have hrest := ih.2 hc2
          dsimp only at hrest
          simp only [List.map_append, List.length_append]
          rw [hdt.1, ← range1_append, ← hdt.2 hstop2, hrest]

/-- Positions in a trace whose numbers form `range' 1 len` are strictly
increasing in number. -/
theorem trace_numbers_getD (tr : List (datagram × Bool))
    (h : tr.map (fun p => p.1.number) = List.range' 1 tr.length)
    (m : Nat) (hm : m < tr.length) :
    (tr.getD m (⟨0, 0, 0, 0, 0, 0, []⟩, false)).1.number = 1 + m := by
  have h1 : (tr.map (fun p => p.1.number)).getD m 0 =
      (List.range' 1 tr.length).getD m 0 := by
    rw [h]
  rw [List.getD_eq_getElem (tr.map (fun p => p.1.number)) 0 (by simpa using hm),
    List.getD_eq_getElem (List.range' 1 tr.length) 0 (by simpa using hm),
    List.getElem_map, List.getElem_range'] at h1
  rw [List.getD_eq_getElem tr _ hm]
  omega

/-! ### Claim C1: in-order delivery through the handler queue -/

/-- Claim C1: starting from a freshly opened handler queue (expected
number 1), over any interleaving of datagram arrivals, data signals and
retry timers, the datagrams dispatched to `handleCommand` carry exactly
the consecutive numbers 1, 2, 3, … in dispatch order — so any two
dispatched datagrams are handed over in increasing number order, and in
particular the spec scenario (FORWARD numbers 3, 1, 2 with payloads A, B,
C arriving in that order with interleaved signals) writes exactly "ABC" to
the peer with no RETRY and no CLOSE emitted. -/
theorem C1_inorder_delivery :
    (∀ (ok : datagram → Bool) (es : List QEvent),
      (runEvents ok es openHandlerPriorityQueue).2.1.map (fun p => p.1.number) =
        List.range' 1 (runEvents ok es openHandlerPriorityQueue).2.1.length) ∧
    (∀ (ok : datagram → Bool) (es : List QEvent) (i j : Nat),
      i < j → j < (runEvents ok es openHandlerPriorityQueue).2.1.length →
      ((runEvents ok es openHandlerPriorityQueue).2.1.getD i
        (⟨0, 0, 0, 0, 0, 0, []⟩, false)).1.number <
      ((runEvents ok es openHandlerPriorityQueue).2.1.getD j
        (⟨0, 0, 0, 0, 0, 0, []⟩, false)).1.number) ∧
    peerBytes (runEvents (fun _ => true)
      [QEvent.add ⟨1, 0, 99, 7, 3, 2, [67]⟩, QEvent.handle,
       QEvent.add ⟨1, 0, 99, 7, 1, 2, [65]⟩, QEvent.handle,
       QEvent.add ⟨1, 0, 99, 7, 2, 2, [66]⟩, QEvent.handle]
      openHandlerPriorityQueue).2.1 = [65, 66, 67] ∧
    (runEvents (fun _ => true)
      [QEvent.add ⟨1, 0, 99, 7, 3, 2, [67]⟩, QEvent.handle,
       QEvent.add ⟨1, 0, 99, 7, 1, 2, [65]⟩, QEvent.handle,
       QEvent.add ⟨1, 0, 99, 7, 2, 2, [66]⟩, QEvent.handle]
      openHandlerPriorityQueue).2.2 = [] := by
  have hmapgen : ∀ (ok : datagram → Bool) (es : List QEvent),
      (runEvents ok es openHandlerPriorityQueue).2.1.map (fun p => p.1.number) =
        List.range' 1 (runEvents ok es openHandlerPriorityQueue).2.1.length :=
    fun ok es => (runEvents_trace ok es openHandlerPriorityQueue
      (by simp [openHandlerPriorityQueue])).2 rfl
  refine ⟨hmapgen, ?_, ?_, ?_⟩
  · intro ok es i j hij hj
    have hi : i < (runEvents ok es openHandlerPriorityQueue).2.1.length :=
      Nat.lt_trans hij hj
    rw [trace_numbers_getD _ (hmapgen ok es) i hi,
      trace_numbers_getD _ (hmapgen ok es) j hj]
    omega
  · simp [peerBytes, runEvents, qHandle, qTimer, retryStep, qAdd,
      openHandlerPriorityQueue, drain_none, drain_some_ok, drain_some_stop, List.lookup,
      commandForward]
  · simp [runEvents, qHandle, qTimer, retryStep, qAdd, openHandlerPriorityQueue,
      drain_none, drain_some_ok, drain_some_stop, List.lookup]

end VkProxy
